import Mathlib

/-!
# gleam: driver-side scheduler event loop and executor instruction pipeline

A shallow embedding of

* `distributed/driver/scheduler/scheduler_events.go`  (namespace `Scheduler`)
* `instruction/partition_scatter.go`                  (namespace `Instruction`)
* `distributed/executor/executor.go`                  (namespace `Executor`)

Calls that leave the embedded functions (market, registry, remote execution,
net-channel dials, operators) are recorded as actions of a trace, in program
order.  Go pointers to plan objects are values; a `nil` pointer is `none`.
-/

namespace Gleam

/-! ## pb / flow / plan data model (the fields the scheduler reads) -/

/-- The record pb.Location: a worker endpoint. -/
structure Location where
  Server : String
  Port : Int
deriving DecidableEq, Repr

/-- The record pb.DataLocation; `Location = none` is the nil pointer. -/
structure DataLocation where
  Name : String
  Location : Option Location
  OnDisk : Bool
deriving DecidableEq, Repr

/-- The record pb.Allocation (only the field the scheduler reads). -/
structure Allocation where
  Location : Option Location
deriving DecidableEq, Repr

/-- The record market.Supply; `Object` is the wrapped allocation. -/
structure Supply where
  Object : Allocation
deriving DecidableEq, Repr

structure StepMetadata where
  IsRestartable : Bool
deriving DecidableEq, Repr

structure Step where
  Id : Int
  IsOnDriverSide : Bool
  Meta : StepMetadata
deriving DecidableEq, Repr

structure DasetMetadata where
  OnDisk : Int
deriving DecidableEq, Repr

structure Dataset where
  Id : Int
  Step : Step
  Meta : DasetMetadata
deriving DecidableEq, Repr

structure DatasetShard where
  Id : Int
  Dataset : Dataset
deriving DecidableEq, Repr

structure Task where
  Id : Int
  Step : Step
  InputShards : List DatasetShard
  OutputShards : List DatasetShard
deriving DecidableEq, Repr

/-- A pointer to a plan.StepGroup, identified by the group's id. -/
structure StepGroupRef where
  Id : Nat
deriving DecidableEq, Repr

/-- The record plan.StepGroup (only the field the scheduler reads). -/
structure StepGroup where
  Parents : List StepGroupRef
deriving DecidableEq, Repr

structure TaskGroup where
  Id : Int
  Tasks : List Task
  ParentStepGroup : StepGroup
deriving DecidableEq, Repr

/-- Constants and methods of the flow and pb packages that the scheduler calls
and whose bodies are not part of the embedded files; they are parameters. -/
structure Ext where
  /-- The constant flow.ModeOnDisk. -/
  ModeOnDisk : Int
  /-- The method Dataset.GetIsOnDiskIO(). -/
  GetIsOnDiskIOResult : Dataset → Bool
  /-- The method DatasetShard.Name(). -/
  Name : DatasetShard → String
  /-- The method Location.URL(). -/
  URL : Location → String

namespace Scheduler

structure SubmitTaskGroup where
  TaskGroup : TaskGroup
  Bid : Rat
deriving DecidableEq, Repr

structure ReleaseTaskGroupInputs where
  TaskGroups : List TaskGroup
deriving DecidableEq, Repr

/-- Calls made by an event handler, in the order it makes them. -/
inductive Action where
  | localExecute (task : Task)
  | waitForInputDatasetShardLocations (task : Task)
  | WaitForAllTasksToComplete (stepGroup : StepGroupRef)
  | AddDemand (requirement : TaskGroup) (bid : Rat)
  /-- The receive `supply := <-pickedServerChan`. -/
  | recvSupply (supply : Supply)
  /-- The call shardLocator.SetShardLocation(name, loc). -/
  | SetShardLocation (name : String) (loc : DataLocation)
  | remoteExecuteOnLocation (taskGroup : TaskGroup) (allocation : Allocation)
  | MarkStop (taskGroup : TaskGroup) (err : Option String)
  | Sleep (minutes : Nat)
  | ReturnSupply (supply : Supply)
  /-- The call event.WaitGroup.Done(). -/
  | WaitGroupDone
deriving DecidableEq, Repr

/-- What a handler goroutine did: its calls, and whether it ended in a Go
run-time panic. -/
structure Outcome where
  trace : List Action
  panicked : Bool
deriving DecidableEq, Repr

/-- What the environment hands to one SubmitTaskGroup handler. -/
structure World where
  /-- The supply the market pushes on pickedServerChan. -/
  supply : Supply
  /-- The error (none is nil) returned by the k-th call of
  remoteExecuteOnLocation, counting from 0. -/
  remoteExecuteOnLocation : Nat → Option String

def needsInputFromDriver.loop : List DatasetShard → Bool
  | [] => false
  | shard :: rest => if shard.Dataset.Step.IsOnDriverSide then true else needsInputFromDriver.loop rest

def needsInputFromDriver (task : Task) : Bool :=
  needsInputFromDriver.loop task.InputShards

def isInputOnDisk.loop (ext : Ext) : List DatasetShard → Bool
  | [] => true
  | shard :: rest =>
    if shard.Dataset.Meta.OnDisk ≠ ext.ModeOnDisk then false else isInputOnDisk.loop ext rest

def isInputOnDisk (ext : Ext) (task : Task) : Bool :=
  isInputOnDisk.loop ext task.InputShards

def isRestartableTasks : List Task → Bool
  | [] => true
  | task :: rest => if !task.Step.Meta.IsRestartable then false else isRestartableTasks rest

/-- The method Scheduler.setShardLocation: one registry call. -/
def setShardLocation (ext : Ext) (shard : DatasetShard) (loc : DataLocation) : Action :=
  Action.SetShardLocation (ext.Name shard) loc

/-- The loops at lines 78-85 and 88-95: publish every shard of the list at the
allocation's location. -/
def publishShards (ext : Ext) (allocation : Allocation) : List DatasetShard → List Action
  | [] => []
  | shard :: rest =>
    setShardLocation ext shard
      { Name := ext.Name shard
        Location := allocation.Location
        OnDisk := ext.GetIsOnDiskIOResult shard.Dataset }
      :: publishShards ext allocation rest

/-- The loop at lines 61-63. -/
def waitParents : List StepGroupRef → List Action
  | [] => []
  | stepGroup :: rest => Action.WaitForAllTasksToComplete stepGroup :: waitParents rest

/-- The closure `fn` of lines 97-101, at its k-th call: the calls it makes and
the error it returns. -/
def fn (w : World) (taskGroup : TaskGroup) (allocation : Allocation) (k : Nat) :
    List Action × Option String :=
  let err := w.remoteExecuteOnLocation k
  ([Action.remoteExecuteOnLocation taskGroup allocation, Action.MarkStop taskGroup err], err)

/-- The retries of TimeDelayedRetry after a failed attempt: `attempts` more
attempts at most, each after a sleep, stopping at the first nil error. -/
def TimeDelayedRetry.loop (f : Nat → List Action × Option String) (delay : Nat) :
    Nat → Nat → Option String → List Action × Option String
  | 0, _, err => ([], err)
  | attempts + 1, k, _ =>
    let r := f k
    match r.2 with
    | none => (Action.Sleep delay :: r.1, none)
    | some e =>
      let rest := TimeDelayedRetry.loop f delay attempts (k + 1) (some e)
      (Action.Sleep delay :: r.1 ++ rest.1, rest.2)

/-- Modelled from the spec: util.TimeDelayedRetry, whose body is in the util
package.  The spec's retry policy: up to 3 attempts, a delay of `delay` minutes
between attempts, stopping as soon as an attempt returns nil. -/
def TimeDelayedRetry (f : Nat → List Action × Option String) (delay : Nat) :
    List Action × Option String :=
  let r := f 0
  match r.2 with
  | none => r
  | some e =>
    let rest := TimeDelayedRetry.loop f delay 2 1 (some e)
    (r.1 ++ rest.1, rest.2)

/-- The remote branch of the SubmitTaskGroup handler (lines 55-109), for a
group with first task `first` and last task `lastTask`; the deferred
ReturnSupply is its last call. -/
def submitRemote (ext : Ext) (w : World) (event : SubmitTaskGroup)
    (first lastTask : Task) : List Action :=
  let tasks := event.TaskGroup.Tasks
  let taskGroup := event.TaskGroup
  let waitInputs :=
    if !needsInputFromDriver first then [Action.waitForInputDatasetShardLocations first] else []
  let barrier :=
    if isInputOnDisk ext first && !isRestartableTasks tasks then
      waitParents event.TaskGroup.ParentStepGroup.Parents
    else []
  let supply := w.supply
  let allocation := supply.Object
  let demand := [Action.AddDemand taskGroup event.Bid, Action.recvSupply supply]
  let inputs :=
    if needsInputFromDriver first then publishShards ext allocation first.InputShards else []
  let outputs := publishShards ext allocation lastTask.OutputShards
  let run :=
    if isRestartableTasks tasks then (TimeDelayedRetry (fn w taskGroup allocation) 1).1
    else (fn w taskGroup allocation 0).1
  waitInputs ++ barrier ++ demand ++ inputs ++ outputs ++ run ++ [Action.ReturnSupply supply]

/-- The goroutine started by EventLoop for a SubmitTaskGroup event
(lines 47-111); the deferred WaitGroup.Done() is its last call. -/
def EventLoop.SubmitTaskGroup (ext : Ext) (w : World) (event : SubmitTaskGroup) : Outcome :=
  let tasks := event.TaskGroup.Tasks
  match tasks.head?, tasks.getLast? with
  | some first, some lastTask =>
    if first.Step.IsOnDriverSide then
      { trace := [Action.localExecute lastTask, Action.WaitGroupDone], panicked := false }
    else
      { trace := submitRemote ext w event first lastTask ++ [Action.WaitGroupDone]
        panicked := false }
  | _, _ =>
    -- tasks[len(tasks)-1] on an empty slice
    { trace := [Action.WaitGroupDone], panicked := true }

/-! ### The shard-location registry -/

/-- Modelled from the spec: the shard-location registry (the scheduler's
shardLocator), whose code is not in the embedded files.  A mapping from shard
name to DataLocation; a name that was never published has no entry. -/
structure Registry where
  entries : String → Option DataLocation

/-- Modelled from the spec: the registry of a fresh driver process holds no
entry. -/
def Registry.empty : Registry := { entries := fun _ => none }

/-- Modelled from the spec: Set(name, loc) publishes `loc` under `name`;
every later Get(name) observes it until the next Set(name, _). -/
def Registry.SetShardLocation (r : Registry) (name : String) (loc : DataLocation) : Registry :=
  { entries := fun n => if n = name then some loc else r.entries n }

/-- Modelled from the spec: Get(name) is a non-blocking lookup returning
(loc, found); an unpublished name gives the zero DataLocation, whose location
is nil. -/
def Registry.GetShardLocation (r : Registry) (name : String) : DataLocation × Bool :=
  match r.entries name with
  | some loc => (loc, true)
  | none => ({ Name := "", Location := none, OnDisk := false }, false)

/-- The method Scheduler.getShardLocation. -/
def getShardLocation (ext : Ext) (reg : Registry) (shard : DatasetShard) : DataLocation × Bool :=
  reg.GetShardLocation (ext.Name shard)

/-- The registry after a sequence of calls: the SetShardLocation calls are
applied in order, every other call leaves the registry alone. -/
def Registry.run (r : Registry) : List Action → Registry
  | [] => r
  | Action.SetShardLocation name loc :: rest => (r.SetShardLocation name loc).run rest
  | _ :: rest => r.run rest

/-- The shard names a trace passes to SetShardLocation, in call order. -/
def setNames : List Action → List String
  | [] => []
  | Action.SetShardLocation name _ :: rest => name :: setNames rest
  | _ :: rest => setNames rest

/-- Whether an action is a call of remoteExecuteOnLocation. -/
def Action.isDispatch : Action → Bool
  | Action.remoteExecuteOnLocation _ _ => true
  | _ => false

/-- Whether an action is a call of SetShardLocation. -/
def Action.isPublish : Action → Bool
  | Action.SetShardLocation _ _ => true
  | _ => false

/-- Whether an action is a call of WaitForAllTasksToComplete. -/
def Action.isBarrier : Action → Bool
  | Action.WaitForAllTasksToComplete _ => true
  | _ => false

/-- Whether an action is a call of MarkStop. -/
def Action.isMarkStop : Action → Bool
  | Action.MarkStop _ _ => true
  | _ => false

/-- The traces of the handlers of a sequence of SubmitTaskGroup events, each
with what the environment hands it, one after the other. -/
def submitAll (ext : Ext) : List (World × SubmitTaskGroup) → List Action
  | [] => []
  | (w, event) :: rest => (EventLoop.SubmitTaskGroup ext w event).trace ++ submitAll ext rest

/-- Every shard-name occurrence in the OutputShards lists of all tasks of all
submitted groups. -/
def allOutputNames (ext : Ext) (events : List (World × SubmitTaskGroup)) : List String :=
  events.flatMap fun e => e.2.TaskGroup.Tasks.flatMap fun task => task.OutputShards.map ext.Name

/-- The first task of a submitted group, when it has one and the group is not
driver-side. -/
def remoteFirst (event : SubmitTaskGroup) : Option Task :=
  match event.TaskGroup.Tasks.head? with
  | some first => if first.Step.IsOnDriverSide then none else some first
  | none => none

/-- The input shard names the plan has a handler publish: those of the first
task of a remote group when that task needs input from the driver. -/
def handlerInputs (ext : Ext) (event : SubmitTaskGroup) : List String :=
  match remoteFirst event with
  | some first => if needsInputFromDriver first then first.InputShards.map ext.Name else []
  | none => []

/-- The output shard names the plan has a handler publish: those of the last
task of a remote group. -/
def handlerOutputs (ext : Ext) (event : SubmitTaskGroup) : List String :=
  match remoteFirst event, event.TaskGroup.Tasks.getLast? with
  | some _, some lastTask => lastTask.OutputShards.map ext.Name
  | _, _ => []

/-- Every occurrence of a shard name among the input shards of the remote
first tasks that need input from the driver, over all submitted groups. -/
def driverFedInputs (ext : Ext) (events : List (World × SubmitTaskGroup)) : List String :=
  events.flatMap fun e => handlerInputs ext e.2

/-- Every occurrence of a shard name among the output shards of the last tasks
of the remote groups, over all submitted groups. -/
def remoteOutputs (ext : Ext) (events : List (World × SubmitTaskGroup)) : List String :=
  events.flatMap fun e => handlerOutputs ext e.2

/-- Whether an action is a call of Market.AddDemand. -/
def Action.isAddDemand : Action → Bool
  | Action.AddDemand _ _ => true
  | _ => false

/-- The DataLocation the handler publishes for a shard once it holds the
allocation. -/
def locationAt (ext : Ext) (allocation : Allocation) (shard : DatasetShard) : DataLocation :=
  { Name := ext.Name shard
    Location := allocation.Location
    OnDisk := ext.GetIsOnDiskIOResult shard.Dataset }

/-- All ways of merging the calls of two goroutines into one sequence that
keeps the order of each. -/
inductive Interleaving {α : Type} : List α → List α → List α → Prop where
  | nil : Interleaving [] [] []
  | left (a : α) (l r m : List α) : Interleaving l r m → Interleaving (a :: l) r (a :: m)
  | right (a : α) (l r m : List α) : Interleaving l r m → Interleaving l (a :: r) (a :: m)

/-- The publications of lines 88-95: one per output shard of the last task, in
order, each as {name, the allocation's location, the dataset's on-disk flag}. -/
def outputPublications (ext : Ext) (allocation : Allocation) (lastTask : Task) : List Action :=
  lastTask.OutputShards.map fun shard =>
    Action.SetShardLocation (ext.Name shard) (locationAt ext allocation shard)

/-- The publications of lines 76-86: for a first task fed by the driver, one
per input shard; none otherwise. -/
def inputPublications (ext : Ext) (allocation : Allocation) (first : Task) : List Action :=
  if needsInputFromDriver first then
    first.InputShards.map fun shard =>
      Action.SetShardLocation (ext.Name shard) (locationAt ext allocation shard)
  else []

/-! ### A small plan: a driver-side source read by two remote groups -/

namespace Example

def ext : Ext :=
  { ModeOnDisk := 1
    GetIsOnDiskIOResult := fun dataset => dataset.Meta.OnDisk == 1
    Name := fun shard =>
      match shard.Dataset.Id, shard.Id with
      | 0, 0 => "d0-s0"
      | 1, 0 => "d1-s0"
      | 2, 0 => "d2-s0"
      | 3, 0 => "d3-s0"
      | 4, 0 => "d4-s0"
      | _, _ => "other"
    URL := fun l => l.Server }

def sourceStep : Step := { Id := 0, IsOnDriverSide := true, Meta := { IsRestartable := false } }

def mapStep : Step := { Id := 1, IsOnDriverSide := false, Meta := { IsRestartable := false } }

def filterStep : Step := { Id := 2, IsOnDriverSide := false, Meta := { IsRestartable := false } }

def sortStep : Step := { Id := 3, IsOnDriverSide := false, Meta := { IsRestartable := false } }

/-- The only shard of the dataset made on the driver. -/
def sourceShard : DatasetShard :=
  { Id := 0, Dataset := { Id := 0, Step := sourceStep, Meta := { OnDisk := 0 } } }

def mapShard : DatasetShard :=
  { Id := 0, Dataset := { Id := 1, Step := mapStep, Meta := { OnDisk := 0 } } }

def filterShard : DatasetShard :=
  { Id := 0, Dataset := { Id := 2, Step := filterStep, Meta := { OnDisk := 0 } } }

/-- A shard written to disk by the map step. -/
def diskShard : DatasetShard :=
  { Id := 0, Dataset := { Id := 3, Step := mapStep, Meta := { OnDisk := 1 } } }

def sourceTask : Task :=
  { Id := 0, Step := sourceStep, InputShards := [], OutputShards := [sourceShard] }

def mapTask : Task :=
  { Id := 1, Step := mapStep, InputShards := [sourceShard], OutputShards := [mapShard] }

def filterTask : Task :=
  { Id := 2, Step := filterStep, InputShards := [sourceShard], OutputShards := [filterShard] }

def sortShard : DatasetShard :=
  { Id := 0, Dataset := { Id := 4, Step := sortStep, Meta := { OnDisk := 0 } } }

/-- A remote task without inputs that writes a shard to disk. -/
def scanTask : Task :=
  { Id := 4, Step := mapStep, InputShards := [], OutputShards := [diskShard] }

/-- A non-restartable task reading an on-disk shard. -/
def sortTask : Task :=
  { Id := 3, Step := sortStep, InputShards := [diskShard], OutputShards := [sortShard] }

def sourceGroup : TaskGroup :=
  { Id := 0, Tasks := [sourceTask], ParentStepGroup := { Parents := [] } }

def mapGroup : TaskGroup :=
  { Id := 1, Tasks := [mapTask], ParentStepGroup := { Parents := [{ Id := 0 }] } }

def filterGroup : TaskGroup :=
  { Id := 2, Tasks := [filterTask], ParentStepGroup := { Parents := [{ Id := 0 }] } }

def scanGroup : TaskGroup :=
  { Id := 4, Tasks := [scanTask], ParentStepGroup := { Parents := [] } }

def sortGroup : TaskGroup :=
  { Id := 3, Tasks := [sortTask], ParentStepGroup := { Parents := [{ Id := 1 }] } }

def workerA : Location := { Server := "a", Port := 45326 }

def workerB : Location := { Server := "b", Port := 45326 }

def worldA : World :=
  { supply := { Object := { Location := some workerA } }
    remoteExecuteOnLocation := fun _ => none }

def worldB : World :=
  { supply := { Object := { Location := some workerB } }
    remoteExecuteOnLocation := fun _ => some "connection refused" }

def submitSource : SubmitTaskGroup := { TaskGroup := sourceGroup, Bid := 1 }

def submitMap : SubmitTaskGroup := { TaskGroup := mapGroup, Bid := 1 }

def submitFilter : SubmitTaskGroup := { TaskGroup := filterGroup, Bid := 1 }

def submitSort : SubmitTaskGroup := { TaskGroup := sortGroup, Bid := 1 }

def submitScan : SubmitTaskGroup := { TaskGroup := scanGroup, Bid := 1 }

/-- The source group, then its two readers, each submitted once. -/
def events : List (World × SubmitTaskGroup) :=
  [(worldA, submitSource), (worldA, submitMap), (worldB, submitFilter)]

/-- The source group with one reader, and the scan group with its reader, each
submitted once. -/
def plan : List (World × SubmitTaskGroup) :=
  [(worldA, submitSource), (worldA, submitMap), (worldB, submitScan), (worldA, submitSort)]

/-- A registry in which the map shard and the sort shard are published and the
filter shard is not. -/
def registry : Registry :=
  (Registry.empty.SetShardLocation "d1-s0"
      { Name := "d1-s0", Location := some workerA, OnDisk := false }).SetShardLocation "d4-s0"
    { Name := "d4-s0", Location := some workerB, OnDisk := false }

def release : ReleaseTaskGroupInputs := { TaskGroups := [mapGroup, filterGroup, sortGroup] }

end Example

/-! ### ReleaseTaskGroupInputs -/

/-- One goroutine of lines 126-133: a delete-shard request to `url` for the
shard `name`. -/
structure DeleteRequest where
  url : String
  name : String
deriving DecidableEq, Repr

/-- The loop of lines 119-134 over the output shards of one last task: the
goroutines it starts, in order. -/
def releaseShards (ext : Ext) (reg : Registry) : List DatasetShard → List DeleteRequest
  | [] => []
  | shard :: rest =>
    let location := (getShardLocation ext reg shard).1
    match location.Location with
    | none => releaseShards ext reg rest
    | some l => { url := ext.URL l, name := ext.Name shard } :: releaseShards ext reg rest

/-- The loop of lines 117-135: none is the run-time panic of
tasks[len(tasks)-1] on a group without tasks. -/
def releaseGroups (ext : Ext) (reg : Registry) : List TaskGroup → Option (List DeleteRequest)
  | [] => some []
  | taskGroup :: rest =>
    match taskGroup.Tasks.getLast? with
    | none => none
    | some lastTask =>
      match releaseGroups ext reg rest with
      | none => none
      | some more => some (releaseShards ext reg lastTask.OutputShards ++ more)

/-- Observable calls of the ReleaseTaskGroupInputs handler and its
goroutines. -/
inductive ReleaseAction where
  /-- A goroutine calls sendDeleteRequest. -/
  | sendDeleteRequest (req : DeleteRequest)
  /-- The call of sendDeleteRequest returns `err` (none is nil). -/
  | deleteReturned (req : DeleteRequest) (err : Option String)
  | println (msg : String)
  /-- The deferred event.WaitGroup.Done(). -/
  | WaitGroupDone
deriving DecidableEq, Repr

/-- A state of the handler goroutine and the goroutines it started. -/
structure ReleaseState where
  /-- Loop iterations of the handler that will still start a goroutine. -/
  toSpawn : List DeleteRequest
  /-- Goroutines started that have not yet called sendDeleteRequest. -/
  started : List DeleteRequest
  /-- Goroutines inside sendDeleteRequest. -/
  inflight : List DeleteRequest
  /-- Goroutines whose request returned and that have not yet run wg.Done(). -/
  returned : List (DeleteRequest × Option String)
  /-- The counter of the local sync.WaitGroup `wg`. -/
  wg : Nat
  /-- The handler passed wg.Wait() and ran the deferred WaitGroup.Done(). -/
  finished : Bool
  trace : List ReleaseAction

def ReleaseState.init (reqs : List DeleteRequest) : ReleaseState :=
  { toSpawn := reqs, started := [], inflight := [], returned := [], wg := 0,
    finished := false, trace := [] }

/-- The log line of lines 130-132. -/
def purgeLog : Option String → List ReleaseAction
  | none => []
  | some e => [ReleaseAction.println ("Purging dataset error: " ++ e)]

/-- One step of one goroutine, under any scheduling. -/
inductive ReleaseStep : ReleaseState → ReleaseState → Prop where
  /-- Lines 125-126: wg.Add(1) and the go statement. -/
  | spawn (s : ReleaseState) (r : DeleteRequest) (rest : List DeleteRequest) :
      s.toSpawn = r :: rest →
      ReleaseStep s { s with toSpawn := rest, started := r :: s.started, wg := s.wg + 1 }
  /-- Line 128: a started goroutine calls sendDeleteRequest. -/
  | call (s : ReleaseState) (pre post : List DeleteRequest) (r : DeleteRequest) :
      s.started = pre ++ r :: post →
      ReleaseStep s { s with started := pre ++ post, inflight := r :: s.inflight,
                             trace := s.trace ++ [ReleaseAction.sendDeleteRequest r] }
  /-- Line 128: the request returns, with an error or nil. -/
  | ret (s : ReleaseState) (pre post : List DeleteRequest) (r : DeleteRequest)
      (err : Option String) :
      s.inflight = pre ++ r :: post →
      ReleaseStep s { s with inflight := pre ++ post, returned := (r, err) :: s.returned,
                             trace := s.trace ++ [ReleaseAction.deleteReturned r err] }
  /-- Lines 130-132 and the deferred wg.Done() of line 127. -/
  | done (s : ReleaseState) (pre post : List (DeleteRequest × Option String))
      (r : DeleteRequest) (err : Option String) :
      s.returned = pre ++ (r, err) :: post →
      ReleaseStep s { s with returned := pre ++ post, wg := s.wg - 1,
                             trace := s.trace ++ purgeLog err }
  /-- Line 136 and the deferred call of line 114: wg.Wait() returns once the
  loop is over and the counter is zero; then event.WaitGroup.Done(). -/
  | finish (s : ReleaseState) :
      s.toSpawn = [] → s.wg = 0 → s.finished = false →
      ReleaseStep s { s with finished := true,
                             trace := s.trace ++ [ReleaseAction.WaitGroupDone] }

/-- The states some scheduling reaches from `s`. -/
inductive ReleaseReach (s : ReleaseState) : ReleaseState → Prop where
  | refl : ReleaseReach s s
  | step (t u : ReleaseState) : ReleaseReach s t → ReleaseStep t u → ReleaseReach s u

/-- The requests whose call appears in a trace, in call order. -/
def sentRequests : List ReleaseAction → List DeleteRequest
  | [] => []
  | ReleaseAction.sendDeleteRequest r :: rest => r :: sentRequests rest
  | _ :: rest => sentRequests rest

/-- The requests whose return appears in a trace, in return order. -/
def returnedRequests : List ReleaseAction → List DeleteRequest
  | [] => []
  | ReleaseAction.deleteReturned r _ :: rest => r :: returnedRequests rest
  | _ :: rest => returnedRequests rest

/-- What every reachable state of the handler and its goroutines satisfies:
the counter of `wg` counts the goroutines that have not run wg.Done(); the
requests sent, those of started goroutines and those still to start are the
requests of the loop; every request sent has returned or is in flight; and
WaitGroup.Done() is the last call, made once nothing is left. -/
def ReleaseInv (reqs : List DeleteRequest) (s : ReleaseState) : Prop :=
  s.wg = s.started.length + s.inflight.length + s.returned.length ∧
  (sentRequests s.trace ++ s.started ++ s.toSpawn).Perm reqs ∧
  (returnedRequests s.trace ++ s.inflight).Perm (sentRequests s.trace) ∧
  (s.finished = false → ReleaseAction.WaitGroupDone ∉ s.trace) ∧
  (s.finished = true →
    s.toSpawn = [] ∧ s.started = [] ∧ s.inflight = [] ∧ s.returned = [] ∧
    ∃ body, s.trace = body ++ [ReleaseAction.WaitGroupDone] ∧
      ReleaseAction.WaitGroupDone ∉ body)

/-- The requests the specification describes: for each listed group, for each output
shard of its last task whose registry location is not nil, one request to that
location's URL carrying the shard's name. -/
def expectedRequests (ext : Ext) (reg : Registry) (groups : List TaskGroup) : List DeleteRequest :=
  groups.flatMap fun taskGroup =>
    match taskGroup.Tasks.getLast? with
    | none => []
    | some lastTask =>
      lastTask.OutputShards.filterMap fun shard =>
        ((reg.GetShardLocation (ext.Name shard)).1.Location).map fun l =>
          { url := ext.URL l, name := ext.Name shard }

end Scheduler

/-! ## instruction/partition_scatter.go -/

namespace Instruction

/-- The bytes of one framed message (one row). -/
abbrev Row := List Nat

/-- How a call ends when it does not return nil: an error value, or a Go
run-time panic. -/
inductive Failure where
  | error (msg : String)
  | indexOutOfRange
deriving DecidableEq, Repr

/-- An io.Writer as the environment presents it: the framed messages it has
accepted so far, and the error (none is nil) each of its next writes returns;
past the end of that list a write returns nil. -/
structure Writer where
  received : List Row
  errors : List (Option String)
deriving DecidableEq, Repr

/-- Functions of the util package that DoScatterPartitions calls and whose
code is not in the embedded files; they are parameters.  `κ` is the type of a
decoded key object. -/
structure Util (κ : Type) where
  /-- The function util.DecodeRowKeys(data, indexes). -/
  DecodeRowKeys : Row → List Int → Except String (List κ)
  /-- The function util.PartitionByKeys(shardCount, keys), a Go int. -/
  PartitionByKeys : Int → List κ → Int

/-- Modelled from the spec: util.WriteMessage writes the row as one framed
message, payload unchanged, and returns the writer's error when the write
fails; a failed write delivers nothing. -/
def WriteMessage (writer : Writer) (data : Row) : Writer × Option Failure :=
  match writer.errors with
  | [] => ({ received := writer.received ++ [data], errors := [] }, none)
  | none :: rest => ({ received := writer.received ++ [data], errors := rest }, none)
  | some err :: rest => ({ received := writer.received, errors := rest }, some (Failure.error err))

/-- Modelled from the spec: util.ProcessMessage reads the framed messages of
the reader one after the other up to end of stream and hands each to `f`; the
first failure of `f` ends the loop and is returned. -/
def ProcessMessage {σ : Type} (f : σ → Row → σ × Option Failure) : List Row → σ → σ × Option Failure
  | [], s => (s, none)
  | data :: rest, s =>
    match f s data with
    | (s1, none) => ProcessMessage f rest s1
    | (s1, some e) => (s1, some e)

/-- The Go index expression writers[x]: none is the run-time panic of an index
that is negative or not below len(writers). -/
def index (writers : List Writer) (x : Int) : Option Writer :=
  if 0 ≤ x then writers.get? x.toNat else none

/-- The callback of lines 57-65, on the state of the writers. -/
def scatterRow {κ : Type} (u : Util κ) (shardCount : Int) (indexes : List Int)
    (writers : List Writer) (data : Row) : List Writer × Option Failure :=
  match u.DecodeRowKeys data indexes with
  | Except.error err => (writers, some (Failure.error err))
  | Except.ok keyObjects =>
    let x := u.PartitionByKeys shardCount keyObjects
    match index writers x with
    | none => (writers, some Failure.indexOutOfRange)
    | some writer =>
      let r := WriteMessage writer data
      (writers.set x.toNat r.1, r.2)

/-- The function DoScatterPartitions: the final state of the writers and the
returned failure (none is a nil error). -/
def DoScatterPartitions {κ : Type} (u : Util κ) (reader : List Row) (writers : List Writer)
    (indexes : List Int) : List Writer × Option Failure :=
  let shardCount : Int := writers.length
  ProcessMessage (scatterRow u shardCount indexes) reader writers

/-- The partition the specification assigns to a row: PartitionByKeys of its
decoded keys; none when the keys do not decode. -/
def partitionOf {κ : Type} (u : Util κ) (shardCount : Int) (indexes : List Int) (data : Row) :
    Option Int :=
  match u.DecodeRowKeys data indexes with
  | Except.error _ => none
  | Except.ok keyObjects => some (u.PartitionByKeys shardCount keyObjects)

/-! ### A small scatter -/

namespace Example

/-- A codec whose rows hold one byte per column and that partitions by the sum
of the key bytes modulo the number of outputs. -/
def util : Util Nat :=
  { DecodeRowKeys := fun data indexes =>
      Except.ok (indexes.map fun index => data.getD (index - 1).toNat 0)
    PartitionByKeys := fun shardCount keyObjects => (keyObjects.sum : Int) % shardCount }

/-- The same codec with a partition function that leaves the range of the
outputs, as a signed remainder does on a negative hash. -/
def skewed : Util Nat :=
  { DecodeRowKeys := util.DecodeRowKeys
    PartitionByKeys := fun _ _ => -1 }

def rows : List Row := [[1, 5], [2, 6], [4, 7], [3, 8]]

/-- A writer whose writes succeed. -/
def sink : Writer := { received := [], errors := [] }

/-- A writer whose pipe is closed: its next write fails. -/
def closed : Writer := { received := [], errors := [some "io: read/write on closed pipe"] }

end Example

end Instruction

/-! ## distributed/executor/executor.go -/

namespace Executor

/-- The record cmd.DatasetShardLocation. -/
structure DatasetShardLocation where
  Name : String
  Host : String
  Port : Int
deriving DecidableEq, Repr

/-- The record cmd.OrderBy. -/
structure CmdOrderBy where
  Index : Int
  Order : Int
deriving DecidableEq, Repr

/-- The record flow.OrderBy. -/
structure OrderBy where
  Index : Int
  Order : Int
deriving DecidableEq, Repr

structure Script where
  Path : String
  Args : List String
  IsPipe : Bool
deriving DecidableEq, Repr

structure LocalSort where
  OrderBys : List CmdOrderBy
deriving DecidableEq, Repr

structure PipeAsArgs where
  Code : String
deriving DecidableEq, Repr

structure MergeSortedTo where
  OrderBys : List CmdOrderBy
deriving DecidableEq, Repr

structure ScatterPartitions where
  Indexes : List Int
deriving DecidableEq, Repr

structure RoundRobin where
deriving DecidableEq, Repr

structure CollectPartitions where
deriving DecidableEq, Repr

structure InputSplitReader where
  InputType : String
deriving DecidableEq, Repr

/-- The two flags are optional fields: none is the nil pointer. -/
structure JoinPartitionedSorted where
  Indexes : List Int
  IsLeftOuterJoin : Option Bool
  IsRightOuterJoin : Option Bool
deriving DecidableEq, Repr

structure CoGroupPartitionedSorted where
  Indexes : List Int
deriving DecidableEq, Repr

structure LocalTop where
  N : Int
  OrderBys : List CmdOrderBy
deriving DecidableEq, Repr

structure Broadcast where
deriving DecidableEq, Repr

structure LocalHashAndJoinWith where
  Indexes : List Int
deriving DecidableEq, Repr

/-- The record cmd.Instruction: one optional sub-message per operator
variant; none is an unset variant. -/
structure Instruction where
  Name : String
  Script : Option Script
  LocalSort : Option LocalSort
  PipeAsArgs : Option PipeAsArgs
  MergeSortedTo : Option MergeSortedTo
  ScatterPartitions : Option ScatterPartitions
  RoundRobin : Option RoundRobin
  CollectPartitions : Option CollectPartitions
  InputSplitReader : Option InputSplitReader
  JoinPartitionedSorted : Option JoinPartitionedSorted
  CoGroupPartitionedSorted : Option CoGroupPartitionedSorted
  LocalTop : Option LocalTop
  Broadcast : Option Broadcast
  LocalHashAndJoinWith : Option LocalHashAndJoinWith
  InputShardLocations : List DatasetShardLocation
  OutputShardLocations : List DatasetShardLocation
deriving DecidableEq, Repr

/-- The record cmd.InstructionSet. -/
structure InstructionSet where
  Instructions : List Instruction
  ReaderCount : Int
deriving DecidableEq, Repr

/-- A pipe made by util.NewPiper(): `link k` is the k-th pipe made by
ExecuteInstructionSet, `inner index k` the k-th pipe made inside the goroutine
of the instruction at `index`. -/
inductive Piper where
  | link (k : Nat)
  | inner (index k : Nat)
deriving DecidableEq, Repr

/-- The operator calls of ExecuteInstruction, with their scalar arguments. -/
inductive Operator where
  | Execute (path : String) (args : List String) (prevIsPipe isPipe : Bool)
  | LocalSort (orderBys : List OrderBy)
  | PipeAsArgs (code : String)
  | MergeSortedTo (orderBys : List OrderBy)
  | ScatterPartitions (indexes : List Int)
  | RoundRobin
  | CollectPartitions
  | ReadInputSplits (inputType : String)
  | JoinPartitionedSorted (indexes : List Int) (isLeftOuterJoin isRightOuterJoin : Bool)
  | CoGroupPartitionedSorted (indexes : List Int)
  | LocalTop (n : Int) (orderBys : List OrderBy)
  | Broadcast
  | LocalHashAndJoinWith (indexes : List Int)
deriving DecidableEq, Repr

/-- Calls made by one ExecuteInstruction goroutine, in program order. -/
inductive Action where
  /-- The call wg.Add(1). -/
  | wgAdd
  /-- The statement `go netchan.DialReadChannel(...)`, forwarding to the writer
  end of `chan`. -/
  | DialReadChannel (executorName address shardName : String) (chan : Piper)
  /-- The statement `go netchan.DialWriteChannel(...)`, forwarding from the
  reader end of `chan`. -/
  | DialWriteChannel (executorName address shardName : String) (chan : Piper) (readerCount : Int)
  /-- An operator call reading the reader ends of `readers` and writing the
  writer ends of `writers`. -/
  | run (op : Operator) (readers writers : List Piper)
  /-- The call Writer.Close() on a pipe. -/
  | closeWriter (chan : Piper)
  /-- The deferred wg.Done(). -/
  | wgDone
deriving DecidableEq, Repr

inductive Panic where
  /-- The panic of line 248, "what is this? ...". -/
  | unknownInstruction
  | indexOutOfRange
  | nilDereference
deriving DecidableEq, Repr

structure Result where
  trace : List Action
  panic : Option Panic
deriving DecidableEq, Repr

/-- Run `next` after `r`, unless `r` ended in a panic. -/
def Result.andThen (r next : Result) : Result :=
  match r.panic with
  | some _ => r
  | none => { trace := r.trace ++ next.trace, panic := next.panic }

def Result.ok (trace : List Action) : Result := { trace := trace, panic := none }

def Result.fail (p : Panic) : Result := { trace := [], panic := some p }

/-- The method DatasetShardLocation.Address(), whose code is not in the
embedded files; it is a parameter. -/
structure Ext where
  Address : DatasetShardLocation → String

def toInts (indexes : List Int) : List Int :=
  indexes.map fun x => x

def toOrderBys (orderBys : List CmdOrderBy) : List OrderBy :=
  orderBys.map fun o => { Index := o.Index, Order := o.Order }

def connectInputOutput (x : Ext) (executorName : String) (inChan outChan : Option Piper)
    (i : Instruction) (isFirst isLast : Bool) (readerCount : Int) : Result :=
  let input : Result :=
    match isFirst, inChan with
    | true, some chan =>
      (Result.ok [Action.wgAdd]).andThen
        (match i.InputShardLocations.head? with
         | none => Result.fail Panic.indexOutOfRange
         | some inLocation =>
           Result.ok [Action.DialReadChannel executorName (x.Address inLocation) inLocation.Name chan])
    | _, _ => Result.ok []
  let output : Result :=
    match isLast, outChan with
    | true, some chan =>
      (Result.ok [Action.wgAdd]).andThen
        (match i.OutputShardLocations.head? with
         | none => Result.fail Panic.indexOutOfRange
         | some outLocation =>
           Result.ok [Action.DialWriteChannel executorName (x.Address outLocation) outLocation.Name
             chan readerCount])
    | _, _ => Result.ok []
  input.andThen output

/-- The loops of lines 117-122 and 166-172: one net-reader per input shard
location, each into a new pipe; the calls and the pipes, `k` pipes having been
made before. -/
def dialReaders (x : Ext) (name : String) (NewPiper : Nat → Piper) :
    Nat → List DatasetShardLocation → List Action × List Piper
  | _, [] => ([], [])
  | k, inputLocation :: rest =>
    let inChan := NewPiper k
    let more := dialReaders x name NewPiper (k + 1) rest
    (Action.wgAdd :: Action.DialReadChannel name (x.Address inputLocation) inputLocation.Name inChan
      :: more.1, inChan :: more.2)

/-- The loops of lines 129-134, 148-153 and 218-223: one net-writer per output
shard location, each from a new pipe and with reader count 1. -/
def dialWriters (x : Ext) (name : String) (NewPiper : Nat → Piper) :
    Nat → List DatasetShardLocation → List Action × List Piper
  | _, [] => ([], [])
  | k, outputLocation :: rest =>
    let outChan := NewPiper k
    let more := dialWriters x name NewPiper (k + 1) rest
    (Action.wgAdd :: Action.DialWriteChannel name (x.Address outputLocation) outputLocation.Name
      outChan 1 :: more.1, outChan :: more.2)

/-- The loops of lines 141-143, 160-162 and 230-232. -/
def closeAll : List Piper → List Action
  | [] => []
  | outChan :: rest => Action.closeWriter outChan :: closeAll rest

/-- The branches of lines 126-162 and 215-232: a 1-to-M operator. -/
def fanOut (x : Ext) (NewPiper : Nat → Piper) (inChan : Piper) (i : Instruction)
    (isFirst isLast : Bool) (readerCount : Int) (op : Operator) : Result :=
  let dialed := dialWriters x i.Name NewPiper 0 i.OutputShardLocations
  let outChans := dialed.2
  ((Result.ok dialed.1).andThen
    (connectInputOutput x i.Name (some inChan) none i isFirst isLast readerCount)).andThen
    (Result.ok (Action.run op [inChan] outChans :: closeAll outChans))

/-- The branches of lines 114-124 and 164-174: an N-to-1 operator. -/
def fanIn (x : Ext) (NewPiper : Nat → Piper) (outChan : Piper) (i : Instruction)
    (isFirst isLast : Bool) (readerCount : Int) (op : Operator) : Result :=
  let dialed := dialReaders x i.Name NewPiper 0 i.InputShardLocations
  let inChans := dialed.2
  ((Result.ok dialed.1).andThen
    (connectInputOutput x i.Name none (some outChan) i isFirst isLast readerCount)).andThen
    (Result.ok [Action.run op inChans [outChan]])

/-- The common start of the branches of lines 182-207 and 234-245: two
net-readers on InputShardLocations[0] and [1], then connectInputOutput. -/
def twoInputs (x : Ext) (NewPiper : Nat → Piper) (outChan : Piper) (i : Instruction)
    (isFirst isLast : Bool) (readerCount : Int) : Result :=
  let leftChan := NewPiper 0
  let rightChan := NewPiper 1
  match i.InputShardLocations.get? 0, i.InputShardLocations.get? 1 with
  | some leftLocation, some rightLocation =>
    (Result.ok
      [Action.wgAdd,
       Action.DialReadChannel i.Name (x.Address leftLocation) leftLocation.Name leftChan,
       Action.wgAdd,
       Action.DialReadChannel i.Name (x.Address rightLocation) rightLocation.Name rightChan]).andThen
      (connectInputOutput x i.Name none (some outChan) i isFirst isLast readerCount)
  | _, _ => Result.fail Panic.indexOutOfRange

/-- The 1-to-1 branches: connectInputOutput on both pipes, then the operator. -/
def oneToOne (x : Ext) (inChan outChan : Piper) (i : Instruction)
    (isFirst isLast : Bool) (readerCount : Int) (op : Operator) : Result :=
  (connectInputOutput x i.Name (some inChan) (some outChan) i isFirst isLast readerCount).andThen
    (Result.ok [Action.run op [inChan] [outChan]])

/-- The if-else chain of lines 93-249. -/
def ExecuteInstruction.body (x : Ext) (NewPiper : Nat → Piper) (inChan outChan : Piper)
    (prevIsPipe : Bool) (i : Instruction) (isFirst isLast : Bool) (readerCount : Int) : Result :=
  if let some script := i.Script then
    (connectInputOutput x i.Name (some inChan) (some outChan) i isFirst isLast readerCount).andThen
      (Result.ok [Action.wgAdd,
        Action.run (Operator.Execute script.Path script.Args prevIsPipe script.IsPipe)
          [inChan] [outChan]])
  else if let some localSort := i.LocalSort then
    oneToOne x inChan outChan i isFirst isLast readerCount
      (Operator.LocalSort (toOrderBys localSort.OrderBys))
  else if let some pipeAsArgs := i.PipeAsArgs then
    oneToOne x inChan outChan i isFirst isLast readerCount (Operator.PipeAsArgs pipeAsArgs.Code)
  else if let some mergeSortedTo := i.MergeSortedTo then
    fanIn x NewPiper outChan i isFirst isLast readerCount
      (Operator.MergeSortedTo (toOrderBys mergeSortedTo.OrderBys))
  else if let some scatterPartitions := i.ScatterPartitions then
    fanOut x NewPiper inChan i isFirst isLast readerCount
      (Operator.ScatterPartitions (toInts scatterPartitions.Indexes))
  else if let some _ := i.RoundRobin then
    fanOut x NewPiper inChan i isFirst isLast readerCount Operator.RoundRobin
  else if let some _ := i.CollectPartitions then
    fanIn x NewPiper outChan i isFirst isLast readerCount Operator.CollectPartitions
  else if let some inputSplitReader := i.InputSplitReader then
    oneToOne x inChan outChan i isFirst isLast readerCount
      (Operator.ReadInputSplits inputSplitReader.InputType)
  else if let some jps := i.JoinPartitionedSorted then
    (twoInputs x NewPiper outChan i isFirst isLast readerCount).andThen
      (match jps.IsLeftOuterJoin, jps.IsRightOuterJoin with
       | some l, some r =>
         Result.ok [Action.run (Operator.JoinPartitionedSorted (toInts jps.Indexes) l r)
           [NewPiper 0, NewPiper 1] [outChan]]
       | _, _ => Result.fail Panic.nilDereference)
  else if let some coGroup := i.CoGroupPartitionedSorted then
    (twoInputs x NewPiper outChan i isFirst isLast readerCount).andThen
      (Result.ok [Action.run (Operator.CoGroupPartitionedSorted (toInts coGroup.Indexes))
        [NewPiper 0, NewPiper 1] [outChan]])
  else if let some localTop := i.LocalTop then
    oneToOne x inChan outChan i isFirst isLast readerCount
      (Operator.LocalTop localTop.N (toOrderBys localTop.OrderBys))
  else if let some _ := i.Broadcast then
    fanOut x NewPiper inChan i isFirst isLast readerCount Operator.Broadcast
  else if let some hashJoin := i.LocalHashAndJoinWith then
    (twoInputs x NewPiper outChan i isFirst isLast readerCount).andThen
      (Result.ok [Action.run (Operator.LocalHashAndJoinWith (toInts hashJoin.Indexes))
        [NewPiper 0, NewPiper 1] [outChan]])
  else
    Result.fail Panic.unknownInstruction

/-- The method Executor.ExecuteInstruction: the body, then the deferred
outChan.Writer.Close() and wg.Done(), which also run when the body panics. -/
def ExecuteInstruction (x : Ext) (NewPiper : Nat → Piper) (inChan outChan : Piper)
    (prevIsPipe : Bool) (i : Instruction) (isFirst isLast : Bool) (readerCount : Int) : Result :=
  let r := ExecuteInstruction.body x NewPiper inChan outChan prevIsPipe i isFirst isLast readerCount
  { trace := r.trace ++ [Action.closeWriter outChan, Action.wgDone], panic := r.panic }

/-- The loop of lines 48-67: the goroutines it starts, in index order, each
with what it does. -/
def ExecuteInstructionSet.loop (x : Ext) (total : Nat) (readerCount : Int) :
    Nat → Bool → Piper → List Instruction → List Result
  | _, _, _, [] => []
  | index, prevIsPipe, prevOutputChan, instruction :: rest =>
    let inputChan := prevOutputChan
    let outputChan := Piper.link (index + 1)
    let r := ExecuteInstruction x (Piper.inner index) inputChan outputChan prevIsPipe instruction
      (index == 0) ((index : Int) == (total : Int) - 1) readerCount
    let nextIsPipe :=
      match instruction.Script with
      | some script => script.IsPipe
      | none => false
    r :: ExecuteInstructionSet.loop x total readerCount (index + 1) nextIsPipe outputChan rest

/-- The method Executor.ExecuteInstructionSet: what each instruction's
goroutine does, in index order. -/
def ExecuteInstructionSet (x : Ext) (instructions : InstructionSet) : List Result :=
  ExecuteInstructionSet.loop x instructions.Instructions.length instructions.ReaderCount
    0 false (Piper.link 0) instructions.Instructions

/-- The net-writers a goroutine opens: shard name and reader count of each
DialWriteChannel, in call order. -/
def dialedWriters : List Action → List (String × Int)
  | [] => []
  | Action.DialWriteChannel _ _ shardName _ readerCount :: rest =>
    (shardName, readerCount) :: dialedWriters rest
  | _ :: rest => dialedWriters rest

/-- Whether an action dials a net-reader or a net-writer. -/
def Action.isDial : Action → Bool
  | Action.DialReadChannel _ _ _ _ => true
  | Action.DialWriteChannel _ _ _ _ _ => true
  | _ => false

/-- No operator variant of the instruction is set. -/
def noVariant (i : Instruction) : Bool :=
  i.Script.isNone && i.LocalSort.isNone && i.PipeAsArgs.isNone && i.MergeSortedTo.isNone &&
  i.ScatterPartitions.isNone && i.RoundRobin.isNone && i.CollectPartitions.isNone &&
  i.InputSplitReader.isNone && i.JoinPartitionedSorted.isNone &&
  i.CoGroupPartitionedSorted.isNone && i.LocalTop.isNone && i.Broadcast.isNone &&
  i.LocalHashAndJoinWith.isNone

/-- The thirteen operator variants. -/
inductive Variant where
  | Script | LocalSort | PipeAsArgs | MergeSortedTo | ScatterPartitions | RoundRobin
  | CollectPartitions | InputSplitReader | JoinPartitionedSorted | CoGroupPartitionedSorted
  | LocalTop | Broadcast | LocalHashAndJoinWith
deriving DecidableEq, Repr

/-- The operator variant an instruction is: the first sub-message that is set,
in the order in which ExecuteInstruction tests them; none when none is set. -/
def variantOf (i : Instruction) : Option Variant :=
  if i.Script.isSome then some Variant.Script
  else if i.LocalSort.isSome then some Variant.LocalSort
  else if i.PipeAsArgs.isSome then some Variant.PipeAsArgs
  else if i.MergeSortedTo.isSome then some Variant.MergeSortedTo
  else if i.ScatterPartitions.isSome then some Variant.ScatterPartitions
  else if i.RoundRobin.isSome then some Variant.RoundRobin
  else if i.CollectPartitions.isSome then some Variant.CollectPartitions
  else if i.InputSplitReader.isSome then some Variant.InputSplitReader
  else if i.JoinPartitionedSorted.isSome then some Variant.JoinPartitionedSorted
  else if i.CoGroupPartitionedSorted.isSome then some Variant.CoGroupPartitionedSorted
  else if i.LocalTop.isSome then some Variant.LocalTop
  else if i.Broadcast.isSome then some Variant.Broadcast
  else if i.LocalHashAndJoinWith.isSome then some Variant.LocalHashAndJoinWith
  else none

/-- The 1-to-M variants, which write to the output shard locations through
net-writers of their own. -/
def Variant.isFanOut : Variant → Bool
  | Variant.ScatterPartitions => true
  | Variant.RoundRobin => true
  | Variant.Broadcast => true
  | _ => false

/-- What a goroutine did about net-writers when it opens at most the terminal
one: every net-writer it dialed carries `readerCount`, and when it did not
panic it dialed exactly one, to the first output shard location. -/
def TerminalWriter (i : Instruction) (readerCount : Int) (r : Result) : Prop :=
  (∀ p ∈ dialedWriters r.trace, p.2 = readerCount) ∧
  (r.panic = none →
    ∃ outLocation, i.OutputShardLocations.head? = some outLocation ∧
      dialedWriters r.trace = [(outLocation.Name, readerCount)])

/-! ### Small instruction sets -/

namespace Example

def x : Ext := { Address := fun l => l.Host }

/-- An instruction with no variant set. -/
def blank : Instruction :=
  { Name := "blank", Script := none, LocalSort := none, PipeAsArgs := none,
    MergeSortedTo := none, ScatterPartitions := none, RoundRobin := none,
    CollectPartitions := none, InputSplitReader := none, JoinPartitionedSorted := none,
    CoGroupPartitionedSorted := none, LocalTop := none, Broadcast := none,
    LocalHashAndJoinWith := none, InputShardLocations := [], OutputShardLocations := [] }

def inputLocation : DatasetShardLocation := { Name := "d0-s0", Host := "a", Port := 45326 }

def out0 : DatasetShardLocation := { Name := "d1-s0", Host := "b", Port := 45326 }

def out1 : DatasetShardLocation := { Name := "d1-s1", Host := "c", Port := 45326 }

def sort : Instruction :=
  { blank with
    Name := "sort", LocalSort := some { OrderBys := [{ Index := 1, Order := 1 }] },
    InputShardLocations := [inputLocation], OutputShardLocations := [out0] }

def scatter : Instruction :=
  { blank with
    Name := "scatter", ScatterPartitions := some { Indexes := [1] },
    InputShardLocations := [inputLocation], OutputShardLocations := [out0, out1] }

/-- A task whose only instruction sorts, with two declared readers. -/
def sortSet : InstructionSet := { Instructions := [sort], ReaderCount := 2 }

/-- A task whose terminal instruction scatters, with two declared readers. -/
def scatterSet : InstructionSet := { Instructions := [sort, scatter], ReaderCount := 2 }

end Example

end Executor

end Gleam

/-! # Theorems -/

namespace Gleam

namespace Scheduler

/-! ## Helper lemmas on the loops -/

theorem isInputOnDisk_loop_iff (ext : Ext) (shards : List DatasetShard) :
    isInputOnDisk.loop ext shards = true ↔
      ∀ shard ∈ shards, shard.Dataset.Meta.OnDisk = ext.ModeOnDisk := by
  induction shards with
  | nil => simp [isInputOnDisk.loop]
  | cons shard rest ih =>
    by_cases h : shard.Dataset.Meta.OnDisk = ext.ModeOnDisk
    · simp [isInputOnDisk.loop, h, ih]
    · simp [isInputOnDisk.loop, h]

theorem isRestartableTasks_eq_false_iff (tasks : List Task) :
    isRestartableTasks tasks = false ↔
      ∃ task ∈ tasks, task.Step.Meta.IsRestartable = false := by
  induction tasks with
  | nil => simp [isRestartableTasks]
  | cons task rest ih =>
    cases h : task.Step.Meta.IsRestartable
    · simp [isRestartableTasks, h]
    · simp [isRestartableTasks, h, ih]

theorem publishShards_eq_map (ext : Ext) (allocation : Allocation) (shards : List DatasetShard) :
    publishShards ext allocation shards =
      shards.map fun shard => Action.SetShardLocation (ext.Name shard) (locationAt ext allocation shard) := by
  induction shards with
  | nil => rfl
  | cons shard rest ih => simp [publishShards, setShardLocation, locationAt, ih]

theorem waitParents_eq_map (parents : List StepGroupRef) :
    waitParents parents = parents.map Action.WaitForAllTasksToComplete := by
  induction parents with
  | nil => rfl
  | cons stepGroup rest ih => simp [waitParents, ih]

theorem mem_fn (w : World) (taskGroup : TaskGroup) (allocation : Allocation) (k : Nat)
    (a : Action) (h : a ∈ (fn w taskGroup allocation k).1) :
    a = Action.remoteExecuteOnLocation taskGroup allocation ∨
      a = Action.MarkStop taskGroup (w.remoteExecuteOnLocation k) := by
  simpa [fn] using h

theorem mem_retry_loop (f : Nat → List Action × Option String) (delay attempts k : Nat)
    (err : Option String) (a : Action)
    (h : a ∈ (TimeDelayedRetry.loop f delay attempts k err).1) :
    a = Action.Sleep delay ∨ ∃ j, a ∈ (f j).1 := by
  induction attempts generalizing k err with
  | zero => simp [TimeDelayedRetry.loop] at h
  | succ n ih =>
    unfold TimeDelayedRetry.loop at h
    cases hr : (f k).2 with
    | none =>
      simp only [hr, List.mem_cons] at h
      rcases h with h | h
      · exact Or.inl h
      · exact Or.inr ⟨k, h⟩
    | some e =>
      simp only [hr, List.cons_append, List.mem_cons, List.mem_append] at h
      rcases h with h | h | h
      · exact Or.inl h
      · exact Or.inr ⟨k, h⟩
      · exact ih _ _ h

theorem mem_retry (f : Nat → List Action × Option String) (delay : Nat) (a : Action)
    (h : a ∈ (TimeDelayedRetry f delay).1) :
    a = Action.Sleep delay ∨ ∃ j, a ∈ (f j).1 := by
  unfold TimeDelayedRetry at h
  cases hr : (f 0).2 with
  | none =>
    simp only [hr] at h
    exact Or.inr ⟨0, h⟩
  | some e =>
    simp only [hr, List.mem_append] at h
    rcases h with h | h
    · exact Or.inr ⟨0, h⟩
    · exact mem_retry_loop f delay 2 1 (some e) a h

/-- Every retried run starts with the first call of `fn`. -/
theorem retry_starts_with_first (f : Nat → List Action × Option String) (delay : Nat) :
    ∃ rest, (TimeDelayedRetry f delay).1 = (f 0).1 ++ rest := by
  simp only [TimeDelayedRetry]
  cases hr : (f 0).2 with
  | none => exact ⟨[], by simp⟩
  | some e => exact ⟨(TimeDelayedRetry.loop f delay 2 1 (some e)).1, rfl⟩

/-- The calls after the publications: the first is the dispatch, and none of
them publishes a location or waits on a barrier. -/
theorem run_shape (w : World) (taskGroup : TaskGroup) (allocation : Allocation) (restartable : Bool) :
    ∃ post,
      (if restartable then (TimeDelayedRetry (fn w taskGroup allocation) 1).1
        else (fn w taskGroup allocation 0).1) =
        Action.remoteExecuteOnLocation taskGroup allocation :: post ∧
      (∀ a ∈ post, a.isPublish = false ∧ a.isBarrier = false ∧ a.isAddDemand = false) := by
  have key : ∀ a, (a = Action.Sleep 1 ∨ ∃ j, a ∈ (fn w taskGroup allocation j).1) →
      a.isPublish = false ∧ a.isBarrier = false ∧ a.isAddDemand = false := by
    intro a ha
    rcases ha with rfl | ⟨j, hj⟩
    · simp [Action.isPublish, Action.isBarrier, Action.isAddDemand]
    · rcases mem_fn _ _ _ _ _ hj with rfl | rfl <;>
        simp [Action.isPublish, Action.isBarrier, Action.isAddDemand]
  cases restartable with
  | false =>
    refine ⟨[Action.MarkStop taskGroup (w.remoteExecuteOnLocation 0)], by simp [fn], ?_⟩
    intro a ha
    simp only [List.mem_singleton] at ha
    subst ha
    simp [Action.isPublish, Action.isBarrier, Action.isAddDemand]
  | true =>
    obtain ⟨rest, hrest⟩ := retry_starts_with_first (fn w taskGroup allocation) 1
    refine ⟨Action.MarkStop taskGroup (w.remoteExecuteOnLocation 0) :: rest, ?_, ?_⟩
    · simp [hrest, fn]
    · intro a ha
      apply key
      have : a ∈ (TimeDelayedRetry (fn w taskGroup allocation) 1).1 := by
        rw [hrest]
        simp only [List.mem_cons] at ha
        rcases ha with rfl | ha
        · simp [fn]
        · exact List.mem_append_right _ ha
      exact mem_retry _ _ _ this

/-- The handler of a remote group is the remote branch followed by the
deferred WaitGroup.Done(). -/
theorem submit_remote_trace (ext : Ext) (w : World) (event : SubmitTaskGroup)
    (first lastTask : Task)
    (hfirst : event.TaskGroup.Tasks.head? = some first)
    (hlast : event.TaskGroup.Tasks.getLast? = some lastTask)
    (hremote : first.Step.IsOnDriverSide = false) :
    EventLoop.SubmitTaskGroup ext w event =
      { trace := submitRemote ext w event first lastTask ++ [Action.WaitGroupDone]
        panicked := false } := by
  simp [EventLoop.SubmitTaskGroup, hfirst, hlast, hremote]

/-- The calls of the remote handler, in order: the optional wait for the
inputs, the optional barrier, the demand and the receive of the supply, the
publications of the inputs (driver-fed groups only), the publications of the
outputs, the dispatch, and calls that neither publish, nor wait on a barrier,
nor add a demand. -/
theorem remote_shape (ext : Ext) (w : World) (event : SubmitTaskGroup)
    (first lastTask : Task)
    (hfirst : event.TaskGroup.Tasks.head? = some first)
    (hlast : event.TaskGroup.Tasks.getLast? = some lastTask)
    (hremote : first.Step.IsOnDriverSide = false) :
    ∃ post,
      (EventLoop.SubmitTaskGroup ext w event).trace =
        (if needsInputFromDriver first then []
          else [Action.waitForInputDatasetShardLocations first]) ++
        (if isInputOnDisk ext first && !isRestartableTasks event.TaskGroup.Tasks then
          event.TaskGroup.ParentStepGroup.Parents.map Action.WaitForAllTasksToComplete
          else []) ++
        [Action.AddDemand event.TaskGroup event.Bid, Action.recvSupply w.supply] ++
        (if needsInputFromDriver first then
          first.InputShards.map fun shard =>
            Action.SetShardLocation (ext.Name shard) (locationAt ext w.supply.Object shard)
          else []) ++
        (lastTask.OutputShards.map fun shard =>
          Action.SetShardLocation (ext.Name shard) (locationAt ext w.supply.Object shard)) ++
        Action.remoteExecuteOnLocation event.TaskGroup w.supply.Object :: post ∧
      (∀ a ∈ post, a.isPublish = false ∧ a.isBarrier = false ∧ a.isAddDemand = false) ∧
      (isRestartableTasks event.TaskGroup.Tasks = false →
        post = [Action.MarkStop event.TaskGroup (w.remoteExecuteOnLocation 0),
                Action.ReturnSupply w.supply, Action.WaitGroupDone]) := by
  obtain ⟨post, hrun, hpost⟩ :=
    run_shape w event.TaskGroup w.supply.Object (isRestartableTasks event.TaskGroup.Tasks)
  refine ⟨post ++ [Action.ReturnSupply w.supply, Action.WaitGroupDone], ?_, ?_, ?_⟩
  · rw [submit_remote_trace ext w event first lastTask hfirst hlast hremote]
    simp only [submitRemote, hrun, publishShards_eq_map, waitParents_eq_map]
    cases needsInputFromDriver first <;> simp
  · intro a ha
    simp only [List.mem_append, List.mem_cons, List.mem_singleton, List.not_mem_nil,
      or_false] at ha
    rcases ha with ha | rfl | rfl
    · exact hpost a ha
    · simp [Action.isPublish, Action.isBarrier, Action.isAddDemand]
    · simp [Action.isPublish, Action.isBarrier, Action.isAddDemand]
  · intro hr
    rw [hr] at hrun
    simp [fn] at hrun
    simp [← hrun]

/-- C10: isInputOnDisk(task) is true exactly when every input shard of the
task belongs to a dataset whose on-disk mode is ModeOnDisk; so it is false for
every mixed set (some input shard on disk, some not) and true for a task
without input shards. -/
theorem isInputOnDisk_spec (ext : Ext) (task : Task) :
    (isInputOnDisk ext task = true ↔
      ∀ shard ∈ task.InputShards, shard.Dataset.Meta.OnDisk = ext.ModeOnDisk) ∧
    (((∃ shard ∈ task.InputShards, shard.Dataset.Meta.OnDisk = ext.ModeOnDisk) ∧
      (∃ shard ∈ task.InputShards, shard.Dataset.Meta.OnDisk ≠ ext.ModeOnDisk)) →
      isInputOnDisk ext task = false) ∧
    (task.InputShards = [] → isInputOnDisk ext task = true) := by
  have hiff := isInputOnDisk_loop_iff ext task.InputShards
  refine ⟨hiff, ?_, ?_⟩
  · rintro ⟨_, shard, hmem, hne⟩
    cases h : isInputOnDisk ext task with
    | false => rfl
    | true => exact absurd (hiff.mp h shard hmem) hne
  · intro hnil
    apply hiff.mpr
    simp [hnil]

/-- C3: in the remote case, when every input shard of the first task is on
disk and some task of the group has a non-restartable step, the handler calls
WaitForAllTasksToComplete on every parent of the group's ParentStepGroup, in
order, and only calls that add no demand, publish nothing and dispatch nothing
come before; the demand, the publications and the dispatch all come after.
When some input shard is not on disk, or every task is restartable, no call of
the handler is a WaitForAllTasksToComplete. -/
theorem barrier_before_demand (ext : Ext) (w : World) (event : SubmitTaskGroup)
    (first lastTask : Task)
    (hfirst : event.TaskGroup.Tasks.head? = some first)
    (hlast : event.TaskGroup.Tasks.getLast? = some lastTask)
    (hremote : first.Step.IsOnDriverSide = false) :
    (((∀ shard ∈ first.InputShards, shard.Dataset.Meta.OnDisk = ext.ModeOnDisk) ∧
      (∃ task ∈ event.TaskGroup.Tasks, task.Step.Meta.IsRestartable = false)) →
      ∃ pre post,
        (EventLoop.SubmitTaskGroup ext w event).trace =
          pre ++ event.TaskGroup.ParentStepGroup.Parents.map Action.WaitForAllTasksToComplete ++
            Action.AddDemand event.TaskGroup event.Bid :: post ∧
        (∀ a ∈ pre, a.isAddDemand = false ∧ a.isPublish = false ∧ a.isDispatch = false ∧
          a.isBarrier = false) ∧
        (∀ a ∈ post, a.isBarrier = false ∧ a.isAddDemand = false) ∧
        Action.remoteExecuteOnLocation event.TaskGroup w.supply.Object ∈ post ∧
        (∀ a ∈ (EventLoop.SubmitTaskGroup ext w event).trace, a.isPublish = true → a ∈ post)) ∧
    (((∃ shard ∈ first.InputShards, shard.Dataset.Meta.OnDisk ≠ ext.ModeOnDisk) ∨
      (∀ task ∈ event.TaskGroup.Tasks, task.Step.Meta.IsRestartable = true)) →
      ∀ a ∈ (EventLoop.SubmitTaskGroup ext w event).trace, a.isBarrier = false) := by
  obtain ⟨post, htrace, hpost, -⟩ := remote_shape ext w event first lastTask hfirst hlast hremote
  have hdisk := isInputOnDisk_loop_iff ext first.InputShards
  have hrestart := isRestartableTasks_eq_false_iff event.TaskGroup.Tasks
  have hpostB : ∀ a ∈ post, a.isBarrier = false := fun a ha => (hpost a ha).2.1
  have hpostD : ∀ a ∈ post, a.isAddDemand = false := fun a ha => (hpost a ha).2.2
  constructor
  · rintro ⟨hall, hsome⟩
    have h1 : isInputOnDisk ext first = true := hdisk.mpr hall
    have h2 : isRestartableTasks event.TaskGroup.Tasks = false := hrestart.mpr hsome
    rw [h1, h2] at htrace
    simp only [Bool.not_false, Bool.and_self, if_true] at htrace
    refine ⟨(if needsInputFromDriver first then []
              else [Action.waitForInputDatasetShardLocations first]),
            Action.recvSupply w.supply ::
              ((if needsInputFromDriver first then
                first.InputShards.map fun shard =>
                  Action.SetShardLocation (ext.Name shard) (locationAt ext w.supply.Object shard)
                else []) ++
              (lastTask.OutputShards.map fun shard =>
                Action.SetShardLocation (ext.Name shard) (locationAt ext w.supply.Object shard)) ++
              Action.remoteExecuteOnLocation event.TaskGroup w.supply.Object :: post),
            ?_, ?_, ?_, ?_, ?_⟩
    · rw [htrace]
      simp
    · cases needsInputFromDriver first <;>
        simp [Action.isAddDemand, Action.isPublish, Action.isDispatch, Action.isBarrier]
    · simp only [List.forall_mem_cons, List.forall_mem_append]
      refine ⟨by simp [Action.isBarrier, Action.isAddDemand], ⟨?_, ?_⟩, by simp [Action.isBarrier, Action.isAddDemand], fun a ha => ⟨hpostB a ha, hpostD a ha⟩⟩
      · cases needsInputFromDriver first <;> simp [Action.isBarrier, Action.isAddDemand]
      · simp [Action.isBarrier, Action.isAddDemand]
    · simp
    · rw [htrace]
      simp only [List.forall_mem_cons, List.forall_mem_append]
      refine ⟨⟨⟨⟨⟨?_, ?_⟩, ?_, ?_, by simp⟩, ?_⟩, ?_⟩, ?_, ?_⟩
      · cases needsInputFromDriver first <;> simp [Action.isPublish]
      · simp [Action.isPublish]
      · simp [Action.isPublish]
      · simp [Action.isPublish]
      · intro a ha _
        simp [ha]
      · intro a ha _
        simp [ha]
      · simp [Action.isPublish]
      · intro a ha _
        simp [ha]
  · intro hcase
    have hcond : (isInputOnDisk ext first && !isRestartableTasks event.TaskGroup.Tasks) = false := by
      rcases hcase with ⟨shard, hmem, hne⟩ | hall
      · have : isInputOnDisk ext first = false := by
          cases h : isInputOnDisk ext first with
          | false => rfl
          | true => exact absurd (hdisk.mp h shard hmem) hne
        simp [this]
      · have : isRestartableTasks event.TaskGroup.Tasks = true := by
          cases h : isRestartableTasks event.TaskGroup.Tasks with
          | true => rfl
          | false =>
            obtain ⟨task, hmem, hf⟩ := hrestart.mp h
            rw [hall task hmem] at hf
            cases hf
        simp [this]
    rw [hcond] at htrace
    rw [htrace]
    simp only [List.forall_mem_cons, List.forall_mem_append]
    refine ⟨⟨⟨⟨⟨?_, ?_⟩, ?_, ?_, by simp⟩, ?_⟩, ?_⟩, ?_, hpostB⟩
    · cases needsInputFromDriver first <;> simp [Action.isBarrier]
    · simp
    · simp [Action.isBarrier]
    · simp [Action.isBarrier]
    · cases needsInputFromDriver first <;> simp [Action.isBarrier]
    · simp [Action.isBarrier]
    · simp [Action.isBarrier]

/-- C1: in the remote case the handler first receives the allocation from the
market, then publishes (after the input shards of a driver-fed first task)
exactly the output shards of the group's last task, one publication per shard
in order, each as {shard name, the allocation's location, the dataset's
on-disk flag}, and only then dispatches remoteExecuteOnLocation; no call
before the receive and no call after the dispatch publishes a location. -/
theorem publish_before_dispatch (ext : Ext) (w : World) (event : SubmitTaskGroup)
    (first lastTask : Task)
    (hfirst : event.TaskGroup.Tasks.head? = some first)
    (hlast : event.TaskGroup.Tasks.getLast? = some lastTask)
    (hremote : first.Step.IsOnDriverSide = false) :
    ∃ pre post,
      (EventLoop.SubmitTaskGroup ext w event).trace =
        pre ++ Action.recvSupply w.supply ::
          (inputPublications ext w.supply.Object first ++
            (lastTask.OutputShards.map fun shard =>
              Action.SetShardLocation (ext.Name shard)
                { Name := ext.Name shard
                  Location := w.supply.Object.Location
                  OnDisk := ext.GetIsOnDiskIOResult shard.Dataset }) ++
            Action.remoteExecuteOnLocation event.TaskGroup w.supply.Object :: post) ∧
      (∀ a ∈ pre, a.isPublish = false ∧ a.isDispatch = false) ∧
      (∀ a ∈ inputPublications ext w.supply.Object first, a.isDispatch = false) ∧
      (∀ a ∈ post, a.isPublish = false) := by
  obtain ⟨post, htrace, hpost, -⟩ := remote_shape ext w event first lastTask hfirst hlast hremote
  refine ⟨(if needsInputFromDriver first then []
            else [Action.waitForInputDatasetShardLocations first]) ++
          (if isInputOnDisk ext first && !isRestartableTasks event.TaskGroup.Tasks then
            event.TaskGroup.ParentStepGroup.Parents.map Action.WaitForAllTasksToComplete
            else []) ++ [Action.AddDemand event.TaskGroup event.Bid], post, ?_, ?_, ?_, ?_⟩
  · rw [htrace]
    simp [inputPublications, locationAt]
  · simp only [List.forall_mem_append, List.forall_mem_cons]
    refine ⟨⟨?_, ?_⟩, by simp [Action.isPublish, Action.isDispatch], by simp⟩
    · cases needsInputFromDriver first <;> simp [Action.isPublish, Action.isDispatch]
    · cases (isInputOnDisk ext first && !isRestartableTasks event.TaskGroup.Tasks) <;>
        simp [Action.isPublish, Action.isDispatch]
  · unfold inputPublications
    cases needsInputFromDriver first <;> simp [Action.isDispatch]
  · exact fun a ha => (hpost a ha).1

/-- C8: in the remote case, when some task's step is not marked restartable,
the last four calls of the handler are remoteExecuteOnLocation, MarkStop with
exactly the error this call returned, ReturnSupply and WaitGroup.Done(), in
this order, and none of the calls before them is one of these four. -/
theorem non_restartable_runs_once (ext : Ext) (w : World) (event : SubmitTaskGroup)
    (first lastTask : Task)
    (hfirst : event.TaskGroup.Tasks.head? = some first)
    (hlast : event.TaskGroup.Tasks.getLast? = some lastTask)
    (hremote : first.Step.IsOnDriverSide = false)
    (hsome : ∃ task ∈ event.TaskGroup.Tasks, task.Step.Meta.IsRestartable = false) :
    ∃ pre,
      (EventLoop.SubmitTaskGroup ext w event).trace =
        pre ++ [Action.remoteExecuteOnLocation event.TaskGroup w.supply.Object,
                Action.MarkStop event.TaskGroup (w.remoteExecuteOnLocation 0),
                Action.ReturnSupply w.supply,
                Action.WaitGroupDone] ∧
      (∀ a ∈ pre, a.isDispatch = false ∧ a.isMarkStop = false ∧
        a ≠ Action.ReturnSupply w.supply ∧ a ≠ Action.WaitGroupDone) ∧
      (EventLoop.SubmitTaskGroup ext w event).panicked = false := by
  obtain ⟨post, htrace, -, hpost⟩ := remote_shape ext w event first lastTask hfirst hlast hremote
  have hnr := (isRestartableTasks_eq_false_iff event.TaskGroup.Tasks).mpr hsome
  rw [hpost hnr] at htrace
  refine ⟨_, htrace, ?_, ?_⟩
  · simp only [List.forall_mem_append, List.forall_mem_cons]
    refine ⟨⟨⟨⟨?_, ?_⟩, ?_, ?_, by simp⟩, ?_⟩, ?_⟩
    · cases needsInputFromDriver first <;> simp [Action.isDispatch, Action.isMarkStop]
    · cases (isInputOnDisk ext first && !isRestartableTasks event.TaskGroup.Tasks) <;>
        simp [Action.isDispatch, Action.isMarkStop]
    · simp [Action.isDispatch, Action.isMarkStop]
    · simp [Action.isDispatch, Action.isMarkStop]
    · cases needsInputFromDriver first <;> simp [Action.isDispatch, Action.isMarkStop]
    · simp [Action.isDispatch, Action.isMarkStop]
  · rw [submit_remote_trace ext w event first lastTask hfirst hlast hremote]

/-! ## The registry along a sequence of calls -/

theorem mem_interleaving {α : Type} {l r m : List α} (h : Interleaving l r m) (a : α) :
    a ∈ m ↔ a ∈ l ∨ a ∈ r := by
  induction h with
  | nil => simp
  | left b l r m _ ih => simp [ih, or_assoc]
  | right b l r m _ ih =>
    simp only [List.mem_cons, ih]
    tauto

theorem run_append (r : Registry) (l₁ l₂ : List Action) :
    r.run (l₁ ++ l₂) = (r.run l₁).run l₂ := by
  induction l₁ generalizing r with
  | nil => rfl
  | cons a rest ih => cases a <;> simp [Registry.run, ih]

/-- A registered non-nil location stays non-nil while only non-nil locations
are published. -/
theorem run_keeps_location (ops : List Action)
    (hops : ∀ name loc, Action.SetShardLocation name loc ∈ ops → loc.Location ≠ none)
    (r : Registry) (n : String) (h : (r.GetShardLocation n).1.Location ≠ none) :
    ((r.run ops).GetShardLocation n).1.Location ≠ none := by
  induction ops generalizing r with
  | nil => exact h
  | cons a rest ih =>
    have hrest : ∀ name loc, Action.SetShardLocation name loc ∈ rest → loc.Location ≠ none :=
      fun name loc hm => hops name loc (List.mem_cons_of_mem _ hm)
    cases a with
    | SetShardLocation name loc =>
      simp only [Registry.run]
      apply ih hrest
      by_cases hn : n = name
      · simp [Registry.GetShardLocation, Registry.SetShardLocation, hn]
        exact hops name loc (List.mem_cons_self _ _)
      · simpa [Registry.GetShardLocation, Registry.SetShardLocation, hn] using h
    | _ => exact ih hrest r h

/-- A shard published with a non-nil location is registered from then on,
while only non-nil locations are published. -/
theorem run_registers (ops : List Action)
    (hops : ∀ name loc, Action.SetShardLocation name loc ∈ ops → loc.Location ≠ none)
    (r : Registry) (n : String) (loc : DataLocation)
    (hmem : Action.SetShardLocation n loc ∈ ops) :
    ((r.run ops).GetShardLocation n).1.Location ≠ none := by
  induction ops generalizing r with
  | nil => simp at hmem
  | cons a rest ih =>
    have hrest : ∀ name loc, Action.SetShardLocation name loc ∈ rest → loc.Location ≠ none :=
      fun name loc hm => hops name loc (List.mem_cons_of_mem _ hm)
    rcases List.mem_cons.mp hmem with heq | hin
    · subst heq
      simp only [Registry.run]
      apply run_keeps_location rest hrest
      simp [Registry.GetShardLocation, Registry.SetShardLocation]
      exact hops n loc (List.mem_cons_self _ _)
    · cases a with
      | SetShardLocation name loc2 =>
        simp only [Registry.run]
        exact ih hrest _ hin
      | _ => exact ih hrest r hin

theorem found_of_location (r : Registry) (n : String)
    (h : (r.GetShardLocation n).1.Location ≠ none) : (r.GetShardLocation n).2 = true := by
  unfold Registry.GetShardLocation at h ⊢
  cases hr : r.entries n with
  | none => simp [hr] at h
  | some loc => simp

/-- Every location a SubmitTaskGroup handler publishes is the location of the
allocation it received from the market. -/
theorem handler_publishes_at_allocation (ext : Ext) (w : World) (event : SubmitTaskGroup)
    (name : String) (loc : DataLocation)
    (h : Action.SetShardLocation name loc ∈ (EventLoop.SubmitTaskGroup ext w event).trace) :
    loc.Location = w.supply.Object.Location := by
  cases hfirst : event.TaskGroup.Tasks.head? with
  | none => simp [EventLoop.SubmitTaskGroup, hfirst] at h
  | some first =>
    cases hlast : event.TaskGroup.Tasks.getLast? with
    | none => simp [EventLoop.SubmitTaskGroup, hfirst, hlast] at h
    | some lastTask =>
      cases hside : first.Step.IsOnDriverSide with
      | true => simp [EventLoop.SubmitTaskGroup, hfirst, hlast, hside] at h
      | false =>
        obtain ⟨post, htrace, hpost, -⟩ :=
          remote_shape ext w event first lastTask hfirst hlast hside
        rw [htrace] at h
        simp only [List.mem_append, List.mem_cons, List.mem_map] at h
        rcases h with ((((h | h) | h) | h) | h) | h
        · cases hn : needsInputFromDriver first <;> simp [hn] at h
        · cases hc : (isInputOnDisk ext first && !isRestartableTasks event.TaskGroup.Tasks) <;>
            simp [hc] at h
        · simp at h
        · cases hn : needsInputFromDriver first <;> simp [hn] at h
          obtain ⟨shard, -, -, rfl⟩ := h
          rfl
        · obtain ⟨shard, -, heq⟩ := h
          injection heq with _ hloc
          rw [← hloc]
          rfl
        · rcases h with h | h
          · cases h
          · have := (hpost _ h).1
            simp [Action.isPublish] at this

/-- When two splits of a sequence stop at the same call and no call before
the stop of the first split is such a call, the part before the stop of the
second split starts with that of the first. -/
theorem prefix_of_first_stop {α : Type} (p : α → Bool) (d : α) (hd : p d = true)
    (pre : List α) (hpre : ∀ a ∈ pre, p a = false) (mid post post1 : List α)
    (h : mid ++ d :: post = pre ++ d :: post1) : ∃ more, mid = pre ++ more := by
  induction pre generalizing mid with
  | nil => exact ⟨mid, rfl⟩
  | cons x xs ih =>
    cases mid with
    | nil =>
      simp only [List.nil_append, List.cons_append, List.cons.injEq] at h
      have := hpre x (List.mem_cons_self _ _)
      rw [← h.1, hd] at this
      cases this
    | cons y ys =>
      simp only [List.cons_append, List.cons.injEq] at h
      obtain ⟨more, hmore⟩ := ih (fun a ha => hpre a (List.mem_cons_of_mem _ ha)) ys h.2
      exact ⟨more, by simp [h.1, hmore]⟩

/-- C2: in the remote case the handler's first call, when its first task does
not need input from the driver, is waitForInputDatasetShardLocations on that
task, and the dispatch comes after it.  Split the trace at any dispatch: take
the registry at the moment that wait returns (at the handler's start when there
is no wait), where the wait returns only once every input shard of its task has
a non-nil location, and let every allocation handed out by the market carry a
non-nil location.  Then after the handler's calls between the wait and the
dispatch, interleaved in any way with calls of other SubmitTaskGroup handlers,
every input shard of the group's first task is found in the registry with a
non-nil location. -/
theorem inputs_registered_at_dispatch (ext : Ext) (w : World) (event : SubmitTaskGroup)
    (first lastTask : Task)
    (hfirst : event.TaskGroup.Tasks.head? = some first)
    (hlast : event.TaskGroup.Tasks.getLast? = some lastTask)
    (hremote : first.Step.IsOnDriverSide = false) :
    (∃ mid post,
      (EventLoop.SubmitTaskGroup ext w event).trace =
        (if needsInputFromDriver first then []
          else [Action.waitForInputDatasetShardLocations first]) ++ mid ++
          Action.remoteExecuteOnLocation event.TaskGroup w.supply.Object :: post ∧
      ∀ a ∈ mid, a.isDispatch = false) ∧
    ∀ mid post,
      (EventLoop.SubmitTaskGroup ext w event).trace =
        (if needsInputFromDriver first then []
          else [Action.waitForInputDatasetShardLocations first]) ++ mid ++
          Action.remoteExecuteOnLocation event.TaskGroup w.supply.Object :: post →
      ∀ (reg : Registry) (concurrent : List (World × SubmitTaskGroup)) (others ops : List Action),
        (needsInputFromDriver first = false →
          ∀ shard ∈ first.InputShards, (getShardLocation ext reg shard).1.Location ≠ none) →
        w.supply.Object.Location ≠ none →
        (∀ e ∈ concurrent, e.1.supply.Object.Location ≠ none) →
        (∀ a ∈ others, ∃ e ∈ concurrent, a ∈ (EventLoop.SubmitTaskGroup ext e.1 e.2).trace) →
        Interleaving mid others ops →
        ∀ shard ∈ first.InputShards,
          (getShardLocation ext (reg.run ops) shard).2 = true ∧
          (getShardLocation ext (reg.run ops) shard).1.Location ≠ none := by
  obtain ⟨post1, htrace, -, -⟩ := remote_shape ext w event first lastTask hfirst hlast hremote
  -- the handler's calls between the wait and the first dispatch
  have hpre : ∀ a ∈
      (if isInputOnDisk ext first && !isRestartableTasks event.TaskGroup.Tasks then
        event.TaskGroup.ParentStepGroup.Parents.map Action.WaitForAllTasksToComplete
        else []) ++
      [Action.AddDemand event.TaskGroup event.Bid, Action.recvSupply w.supply] ++
      (if needsInputFromDriver first then
        first.InputShards.map fun shard =>
          Action.SetShardLocation (ext.Name shard) (locationAt ext w.supply.Object shard)
        else []) ++
      (lastTask.OutputShards.map fun shard =>
        Action.SetShardLocation (ext.Name shard) (locationAt ext w.supply.Object shard)),
      a.isDispatch = false := by
    simp only [List.forall_mem_append, List.forall_mem_cons]
    refine ⟨⟨⟨?_, ?_, ?_, by simp⟩, ?_⟩, ?_⟩
    · cases (isInputOnDisk ext first && !isRestartableTasks event.TaskGroup.Tasks) <;>
        simp [Action.isDispatch]
    · simp [Action.isDispatch]
    · simp [Action.isDispatch]
    · cases needsInputFromDriver first <;> simp [Action.isDispatch]
    · simp [Action.isDispatch]
  constructor
  · refine ⟨_, post1, ?_, hpre⟩
    rw [htrace]
    simp only [List.append_assoc]
  · intro mid post hsplit reg concurrent others ops hwait halloc hmarket hothers hops
    -- every location published along `ops` is non-nil
    have hall : ∀ name loc, Action.SetShardLocation name loc ∈ ops → loc.Location ≠ none := by
      intro name loc hm
      rcases (mem_interleaving hops _).mp hm with hown | hother
      · have hin : Action.SetShardLocation name loc ∈
            (EventLoop.SubmitTaskGroup ext w event).trace := by
          rw [hsplit]
          simp [hown]
        rw [handler_publishes_at_allocation ext w event name loc hin]
        exact halloc
      · obtain ⟨e, he, hin⟩ := hothers _ hother
        rw [handler_publishes_at_allocation ext e.1 e.2 name loc hin]
        exact hmarket e he
    intro shard hshard
    have hloc : ((reg.run ops).GetShardLocation (ext.Name shard)).1.Location ≠ none := by
      cases hn : needsInputFromDriver first with
      | false => exact run_keeps_location ops hall reg _ (hwait hn shard hshard)
      | true =>
        -- the part before this dispatch starts with the part before the first one
        have heq : mid ++ Action.remoteExecuteOnLocation event.TaskGroup w.supply.Object :: post =
            ((if isInputOnDisk ext first && !isRestartableTasks event.TaskGroup.Tasks then
              event.TaskGroup.ParentStepGroup.Parents.map Action.WaitForAllTasksToComplete
              else []) ++
            [Action.AddDemand event.TaskGroup event.Bid, Action.recvSupply w.supply] ++
            (if needsInputFromDriver first then
              first.InputShards.map fun shard =>
                Action.SetShardLocation (ext.Name shard) (locationAt ext w.supply.Object shard)
              else []) ++
            (lastTask.OutputShards.map fun shard =>
              Action.SetShardLocation (ext.Name shard) (locationAt ext w.supply.Object shard))) ++
            Action.remoteExecuteOnLocation event.TaskGroup w.supply.Object :: post1 := by
          have h1 := hsplit
          rw [htrace] at h1
          simp only [List.append_assoc] at h1 ⊢
          exact (List.append_cancel_left h1).symm
        obtain ⟨more, hmore⟩ := prefix_of_first_stop (fun a => a.isDispatch) _ rfl _ hpre _ _ _ heq
        apply run_registers ops hall reg (ext.Name shard) (locationAt ext w.supply.Object shard)
        apply (mem_interleaving hops _).mpr
        left
        rw [hmore]
        simp only [hn, if_true, List.mem_append, List.mem_map]
        exact Or.inl (Or.inl (Or.inr ⟨shard, hshard, rfl⟩))
    exact ⟨found_of_location _ _ hloc, hloc⟩

/-! ## How often a shard name is published -/

theorem setNames_append (l₁ l₂ : List Action) :
    setNames (l₁ ++ l₂) = setNames l₁ ++ setNames l₂ := by
  induction l₁ with
  | nil => rfl
  | cons a rest ih => cases a <;> simp [setNames, ih]

theorem setNames_of_no_publish (l : List Action) (h : ∀ a ∈ l, a.isPublish = false) :
    setNames l = [] := by
  induction l with
  | nil => rfl
  | cons a rest ih =>
    have ha := h a (List.mem_cons_self _ _)
    have hrest := ih fun b hb => h b (List.mem_cons_of_mem _ hb)
    cases a <;> simp_all [setNames, Action.isPublish]

theorem setNames_publications (shards : List DatasetShard) (name : DatasetShard → String)
    (loc : DatasetShard → DataLocation) :
    setNames (shards.map fun shard => Action.SetShardLocation (name shard) (loc shard)) =
      shards.map name := by
  induction shards with
  | nil => rfl
  | cons shard rest ih => simp [setNames, ih]

theorem setNames_perm {l₁ l₂ : List Action} (h : l₁.Perm l₂) :
    (setNames l₁).Perm (setNames l₂) := by
  induction h with
  | nil => exact List.Perm.refl _
  | cons a _ ih => cases a <;> simp [setNames, ih]
  | swap a b l =>
    cases a <;> cases b <;> simp [setNames, List.Perm.swap]
  | trans _ _ ih₁ ih₂ => exact ih₁.trans ih₂

theorem getLast_sublist_flatMap {α β : Type} (f : α → List β) (l : List α) (x : α)
    (h : l.getLast? = some x) : (f x).Sublist (l.flatMap f) := by
  induction l with
  | nil => simp at h
  | cons a rest ih =>
    cases rest with
    | nil =>
      simp at h
      subst h
      simp
    | cons b rest2 =>
      have h2 : (b :: rest2).getLast? = some x := by
        simpa [List.getLast?_cons_cons] using h
      have := ih h2
      rw [List.flatMap_cons]
      exact this.trans (List.sublist_append_right _ _)

/-- The names one handler publishes are the names the plan has it publish:
the input shards of a driver-fed remote first task, then the output shards of
the last task. -/
theorem handler_setNames_eq (ext : Ext) (w : World) (event : SubmitTaskGroup) :
    setNames (EventLoop.SubmitTaskGroup ext w event).trace =
      handlerInputs ext event ++ handlerOutputs ext event := by
  cases hfirst : event.TaskGroup.Tasks.head? with
  | none =>
    simp [EventLoop.SubmitTaskGroup, hfirst, setNames, handlerInputs, handlerOutputs, remoteFirst]
  | some first =>
    cases hlast : event.TaskGroup.Tasks.getLast? with
    | none =>
      have hnil : event.TaskGroup.Tasks = [] := List.getLast?_eq_none_iff.mp hlast
      simp [hnil] at hfirst
    | some lastTask =>
      cases hside : first.Step.IsOnDriverSide with
      | true =>
        simp [EventLoop.SubmitTaskGroup, hfirst, hlast, hside, setNames, handlerInputs,
          handlerOutputs, remoteFirst]
      | false =>
        obtain ⟨post, htrace, hpost, -⟩ := remote_shape ext w event first lastTask hfirst hlast hside
        have h1 : setNames (if needsInputFromDriver first = true then []
            else [Action.waitForInputDatasetShardLocations first]) = [] := by
          cases needsInputFromDriver first <;> rfl
        have h2 : setNames (if (isInputOnDisk ext first &&
            !isRestartableTasks event.TaskGroup.Tasks) = true then
            event.TaskGroup.ParentStepGroup.Parents.map Action.WaitForAllTasksToComplete
            else []) = [] := by
          apply setNames_of_no_publish
          cases (isInputOnDisk ext first && !isRestartableTasks event.TaskGroup.Tasks) <;>
            simp [Action.isPublish]
        have h3 : setNames [Action.AddDemand event.TaskGroup event.Bid,
            Action.recvSupply w.supply] = [] := rfl
        have h4 : setNames (Action.remoteExecuteOnLocation event.TaskGroup w.supply.Object ::
            post) = [] := by
          apply setNames_of_no_publish
          intro a ha
          rcases List.mem_cons.mp ha with rfl | ha
          · rfl
          · exact (hpost a ha).1
        have h5 : setNames (if needsInputFromDriver first = true then
            first.InputShards.map fun shard =>
              Action.SetShardLocation (ext.Name shard) (locationAt ext w.supply.Object shard)
            else []) =
            if needsInputFromDriver first = true then first.InputShards.map ext.Name else [] := by
          cases needsInputFromDriver first
          · rfl
          · simp only [if_true]
            exact setNames_publications _ _ _
        rw [htrace]
        simp only [setNames_append, h1, h2, h3, h4, h5, setNames_publications, List.nil_append,
          List.append_nil]
        simp [handlerInputs, handlerOutputs, remoteFirst, hfirst, hlast, hside]

/-- Over a sequence of events the published names are, up to order, the
driver-fed input names followed by the remote output names. -/
theorem submitAll_setNames_perm (ext : Ext) (events : List (World × SubmitTaskGroup)) :
    (setNames (submitAll ext events)).Perm
      (driverFedInputs ext events ++ remoteOutputs ext events) := by
  induction events with
  | nil => simp [submitAll, setNames, driverFedInputs, remoteOutputs]
  | cons e rest ih =>
    obtain ⟨w, event⟩ := e
    simp only [submitAll, setNames_append, handler_setNames_eq, driverFedInputs, remoteOutputs,
      List.flatMap_cons] at ih ⊢
    apply List.perm_iff_count.mpr
    intro a
    have := List.perm_iff_count.mp ih a
    simp only [List.count_append] at this ⊢
    omega

theorem handlerOutputs_sublist (ext : Ext) (event : SubmitTaskGroup) :
    (handlerOutputs ext event).Sublist
      (event.TaskGroup.Tasks.flatMap fun task => task.OutputShards.map ext.Name) := by
  unfold handlerOutputs
  cases remoteFirst event with
  | none => simp
  | some first =>
    cases hlast : event.TaskGroup.Tasks.getLast? with
    | none => simp
    | some lastTask =>
      exact getLast_sublist_flatMap (fun task => task.OutputShards.map ext.Name) _ _ hlast

theorem remoteOutputs_sublist (ext : Ext) (events : List (World × SubmitTaskGroup)) :
    (remoteOutputs ext events).Sublist (allOutputNames ext events) := by
  induction events with
  | nil => simp [remoteOutputs, allOutputNames]
  | cons e rest ih =>
    simp only [remoteOutputs, allOutputNames, List.flatMap_cons] at ih ⊢
    exact (handlerOutputs_sublist ext e.2).append ih

theorem run_entries_of_not_mem (l : List Action) (r : Registry) (n : String)
    (h : n ∉ setNames l) : (r.run l).entries n = r.entries n := by
  induction l generalizing r with
  | nil => rfl
  | cons a rest ih =>
    cases a with
    | SetShardLocation name loc =>
      simp only [setNames, List.mem_cons, not_or] at h
      simp only [Registry.run]
      rw [ih _ h.2]
      simp [Registry.SetShardLocation, h.1]
    | _ => exact ih r (by simpa [setNames] using h)

theorem mem_setNames_of_entry (l : List Action) (r : Registry) (n : String)
    (h : (r.run l).entries n ≠ none) : r.entries n ≠ none ∨ n ∈ setNames l := by
  by_cases hm : n ∈ setNames l
  · exact Or.inr hm
  · rw [run_entries_of_not_mem l r n hm] at h
    exact Or.inl h

/-- While every name is published at most once, a read that returned a non-nil
location returns the same value ever after. -/
theorem reads_stable (ops : List Action) (hops : (setNames ops).Nodup) (k j : Nat)
    (name : String) (l : Location) (hkj : k ≤ j)
    (hread : ((Registry.empty.run (ops.take k)).GetShardLocation name).1.Location = some l) :
    (Registry.empty.run (ops.take j)).GetShardLocation name =
      (Registry.empty.run (ops.take k)).GetShardLocation name := by
  -- the calls up to j are the calls up to k followed by some more
  have hsplit : ops.take j = ops.take k ++ (ops.drop k).take (j - k) := by
    have h1 : j = k + (j - k) := by omega
    conv_lhs => rw [h1]
    rw [List.take_add]
  have hentry : (Registry.empty.run (ops.take k)).entries name ≠ none := by
    intro hnone
    simp [Registry.GetShardLocation, hnone] at hread
  have hin : name ∈ setNames (ops.take k) := by
    rcases mem_setNames_of_entry _ _ _ hentry with h | h
    · exact absurd rfl h
    · exact h
  have hwhole : setNames ops = setNames (ops.take k) ++ setNames (ops.drop k) := by
    rw [← setNames_append, List.take_append_drop]
  rw [hwhole] at hops
  have hnot : name ∉ setNames (ops.drop k) := fun h => (List.disjoint_of_nodup_append hops) hin h
  have hnot2 : name ∉ setNames ((ops.drop k).take (j - k)) := by
    intro h
    apply hnot
    have hsub : (setNames ((ops.drop k).take (j - k))).Sublist
        (setNames ((ops.drop k).take (j - k)) ++ setNames ((ops.drop k).drop (j - k))) :=
      List.sublist_append_left _ _
    rw [← setNames_append, List.take_append_drop] at hsub
    exact hsub.subset h
  have hsame : (Registry.empty.run (ops.take j)).entries name =
      (Registry.empty.run (ops.take k)).entries name := by
    rw [hsplit, run_append]
    exact run_entries_of_not_mem _ _ _ hnot2
  simp [Registry.GetShardLocation, hsame]

/-- C7, as the code has it: over the handling of any sequence of
SubmitTaskGroup events in which every shard name is listed once among the
output shards of all tasks of all submitted groups (every group is submitted
once, every shard is the output of exactly one task), SetShardLocation is
called at most once for any shard name exactly when the input shards listed by
the remote first tasks that need input from the driver are pairwise distinct
(no shard is listed twice, by one such task or by two) and none of them is an
output shard of a remote group's last task; and then, in any order in which
the calls of the handlers reach a registry that starts empty, once a read of a
shard returns a non-nil location every later read returns the same value. -/
theorem set_at_most_once (ext : Ext) (events : List (World × SubmitTaskGroup))
    (hout : (allOutputNames ext events).Nodup) :
    (((driverFedInputs ext events).Nodup ∧
        ∀ name ∈ driverFedInputs ext events, name ∉ remoteOutputs ext events) ↔
      ∀ name, (setNames (submitAll ext events)).count name ≤ 1) ∧
    ((∀ name, (setNames (submitAll ext events)).count name ≤ 1) →
      ∀ ops : List Action, ops.Perm (submitAll ext events) →
        ∀ (k j : Nat) (name : String) (l : Location), k ≤ j →
          ((Registry.empty.run (ops.take k)).GetShardLocation name).1.Location = some l →
          (Registry.empty.run (ops.take j)).GetShardLocation name =
            (Registry.empty.run (ops.take k)).GetShardLocation name) := by
  have hperm := submitAll_setNames_perm ext events
  have houts : (remoteOutputs ext events).Nodup := (remoteOutputs_sublist ext events).nodup hout
  constructor
  · constructor
    · rintro ⟨hin, hdisj⟩
      have hnodup : (setNames (submitAll ext events)).Nodup := by
        rw [hperm.nodup_iff, List.nodup_append]
        exact ⟨hin, houts, fun name h1 h2 => hdisj name h1 h2⟩
      exact fun name => List.nodup_iff_count_le_one.mp hnodup name
    · intro hcount
      have hnodup : (setNames (submitAll ext events)).Nodup :=
        List.nodup_iff_count_le_one.mpr hcount
      rw [hperm.nodup_iff, List.nodup_append] at hnodup
      exact ⟨hnodup.1, fun name h1 h2 => hnodup.2.2 h1 h2⟩
  · intro hcount ops hp k j name l hkj hread
    have hnodup : (setNames (submitAll ext events)).Nodup :=
      List.nodup_iff_count_le_one.mpr hcount
    exact reads_stable ops ((setNames_perm hp).nodup_iff.mpr hnodup) k j name l hkj hread

/-- C7 fails as stated: the source group, the map group and the filter group
are each submitted once and every shard is the output of exactly one task, yet
the source shard, read by both remote groups, is published twice, first at
worker a and then at worker b, so two reads of it return different non-nil
locations. -/
theorem set_twice_counterexample :
    (Example.events.map fun e => e.2.TaskGroup).Nodup ∧
    (allOutputNames Example.ext Example.events).Nodup ∧
    (setNames (submitAll Example.ext Example.events)).count "d0-s0" = 2 ∧
    ((Registry.empty.run ((submitAll Example.ext Example.events).take 5)).GetShardLocation
      "d0-s0").1.Location = some Example.workerA ∧
    ((Registry.empty.run ((submitAll Example.ext Example.events).take 13)).GetShardLocation
      "d0-s0").1.Location = some Example.workerB ∧
    Example.workerA ≠ Example.workerB := by
  refine ⟨by decide, by decide, by decide, by decide, by decide, by decide⟩

/-! ## The theorems at the example plan -/

/-- C1 at the map group of the example plan, placed on worker a. -/
theorem publish_before_dispatch_witness :
    Example.submitMap.TaskGroup.Tasks.head? = some Example.mapTask ∧
    Example.submitMap.TaskGroup.Tasks.getLast? = some Example.mapTask ∧
    Example.mapTask.Step.IsOnDriverSide = false ∧
    ∃ pre post,
      (EventLoop.SubmitTaskGroup Example.ext Example.worldA Example.submitMap).trace =
        pre ++ Action.recvSupply Example.worldA.supply ::
          (inputPublications Example.ext Example.worldA.supply.Object Example.mapTask ++
            (Example.mapTask.OutputShards.map fun shard =>
              Action.SetShardLocation (Example.ext.Name shard)
                { Name := Example.ext.Name shard
                  Location := Example.worldA.supply.Object.Location
                  OnDisk := Example.ext.GetIsOnDiskIOResult shard.Dataset }) ++
            Action.remoteExecuteOnLocation Example.submitMap.TaskGroup
              Example.worldA.supply.Object :: post) ∧
      (∀ a ∈ pre, a.isPublish = false ∧ a.isDispatch = false) ∧
      (∀ a ∈ inputPublications Example.ext Example.worldA.supply.Object Example.mapTask,
        a.isDispatch = false) ∧
      (∀ a ∈ post, a.isPublish = false) :=
  ⟨rfl, rfl, rfl,
    publish_before_dispatch Example.ext Example.worldA Example.submitMap Example.mapTask
      Example.mapTask rfl rfl rfl⟩

/-- C3 at the sort group of the example plan: its only input shard is on disk
and its task is not restartable. -/
theorem barrier_before_demand_witness :
    Example.submitSort.TaskGroup.Tasks.head? = some Example.sortTask ∧
    Example.submitSort.TaskGroup.Tasks.getLast? = some Example.sortTask ∧
    Example.sortTask.Step.IsOnDriverSide = false ∧
    (∀ shard ∈ Example.sortTask.InputShards,
      shard.Dataset.Meta.OnDisk = Example.ext.ModeOnDisk) ∧
    (∃ task ∈ Example.submitSort.TaskGroup.Tasks, task.Step.Meta.IsRestartable = false) ∧
    ∃ pre post,
      (EventLoop.SubmitTaskGroup Example.ext Example.worldA Example.submitSort).trace =
        pre ++ Example.submitSort.TaskGroup.ParentStepGroup.Parents.map
            Action.WaitForAllTasksToComplete ++
          Action.AddDemand Example.submitSort.TaskGroup Example.submitSort.Bid :: post ∧
      (∀ a ∈ pre, a.isAddDemand = false ∧ a.isPublish = false ∧ a.isDispatch = false ∧
        a.isBarrier = false) ∧
      (∀ a ∈ post, a.isBarrier = false ∧ a.isAddDemand = false) ∧
      Action.remoteExecuteOnLocation Example.submitSort.TaskGroup
        Example.worldA.supply.Object ∈ post ∧
      (∀ a ∈ (EventLoop.SubmitTaskGroup Example.ext Example.worldA Example.submitSort).trace,
        a.isPublish = true → a ∈ post) :=
  ⟨rfl, rfl, rfl, by decide, by decide,
    (barrier_before_demand Example.ext Example.worldA Example.submitSort Example.sortTask
      Example.sortTask rfl rfl rfl).1 ⟨by decide, by decide⟩⟩

/-- C8 at the filter group of the example plan, whose run returns an error. -/
theorem non_restartable_runs_once_witness :
    Example.submitFilter.TaskGroup.Tasks.head? = some Example.filterTask ∧
    Example.submitFilter.TaskGroup.Tasks.getLast? = some Example.filterTask ∧
    Example.filterTask.Step.IsOnDriverSide = false ∧
    (∃ task ∈ Example.submitFilter.TaskGroup.Tasks, task.Step.Meta.IsRestartable = false) ∧
    ∃ pre,
      (EventLoop.SubmitTaskGroup Example.ext Example.worldB Example.submitFilter).trace =
        pre ++ [Action.remoteExecuteOnLocation Example.submitFilter.TaskGroup
                  Example.worldB.supply.Object,
                Action.MarkStop Example.submitFilter.TaskGroup
                  (Example.worldB.remoteExecuteOnLocation 0),
                Action.ReturnSupply Example.worldB.supply,
                Action.WaitGroupDone] ∧
      (∀ a ∈ pre, a.isDispatch = false ∧ a.isMarkStop = false ∧
        a ≠ Action.ReturnSupply Example.worldB.supply ∧ a ≠ Action.WaitGroupDone) ∧
      (EventLoop.SubmitTaskGroup Example.ext Example.worldB Example.submitFilter).panicked =
        false :=
  ⟨rfl, rfl, rfl, by decide,
    non_restartable_runs_once Example.ext Example.worldB Example.submitFilter Example.filterTask
      Example.filterTask rfl rfl rfl (by decide)⟩

theorem interleaving_left_only {α : Type} (l : List α) : Interleaving l [] l := by
  induction l with
  | nil => exact Interleaving.nil
  | cons a rest ih => exact Interleaving.left a rest [] rest ih

theorem interleaving_right_first {α : Type} (l r : List α) : Interleaving l r (r ++ l) := by
  induction r with
  | nil => exact interleaving_left_only l
  | cons a rest ih => exact Interleaving.right a l rest (rest ++ l) ih

/-- C2 at the sort group of the example plan: its input shard was registered
at worker b when the wait returned, and the handler of the scan group runs to
its end between that moment and the sort group's dispatch. -/
theorem inputs_registered_at_dispatch_witness :
    Example.submitSort.TaskGroup.Tasks.head? = some Example.sortTask ∧
    Example.submitSort.TaskGroup.Tasks.getLast? = some Example.sortTask ∧
    Example.sortTask.Step.IsOnDriverSide = false ∧
    ∃ mid post,
      (EventLoop.SubmitTaskGroup Example.ext Example.worldA Example.submitSort).trace =
        Action.waitForInputDatasetShardLocations Example.sortTask :: mid ++
          Action.remoteExecuteOnLocation Example.sortGroup Example.worldA.supply.Object :: post ∧
      (∀ a ∈ mid, a.isDispatch = false) ∧
      ∀ shard ∈ Example.sortTask.InputShards,
        (getShardLocation Example.ext
          ((Registry.empty.SetShardLocation "d3-s0"
              { Name := "d3-s0", Location := some Example.workerB, OnDisk := true }).run
            ((EventLoop.SubmitTaskGroup Example.ext Example.worldB Example.submitScan).trace ++
              mid))
          shard).2 = true ∧
        (getShardLocation Example.ext
          ((Registry.empty.SetShardLocation "d3-s0"
              { Name := "d3-s0", Location := some Example.workerB, OnDisk := true }).run
            ((EventLoop.SubmitTaskGroup Example.ext Example.worldB Example.submitScan).trace ++
              mid))
          shard).1.Location ≠ none :=
  have h := inputs_registered_at_dispatch Example.ext Example.worldA Example.submitSort
    Example.sortTask Example.sortTask rfl rfl rfl
  ⟨rfl, rfl, rfl,
    match h.1 with
    | ⟨mid, post, hsplit, hmid⟩ =>
      ⟨mid, post, hsplit, hmid,
        h.2 mid post hsplit
          (Registry.empty.SetShardLocation "d3-s0"
            { Name := "d3-s0", Location := some Example.workerB, OnDisk := true })
          [(Example.worldB, Example.submitScan)]
          (EventLoop.SubmitTaskGroup Example.ext Example.worldB Example.submitScan).trace
          ((EventLoop.SubmitTaskGroup Example.ext Example.worldB Example.submitScan).trace ++ mid)
          (fun _ => by decide) (by decide) (by simp [Example.worldB])
          (fun a ha => ⟨(Example.worldB, Example.submitScan), List.mem_singleton_self _, ha⟩)
          (interleaving_right_first _ _)⟩⟩

/-- C7, as the code has it, at the example plan: the source shard is read by
one remote group only. -/
theorem set_at_most_once_witness :
    (allOutputNames Example.ext Example.plan).Nodup ∧
    driverFedInputs Example.ext Example.plan = ["d0-s0"] ∧
    remoteOutputs Example.ext Example.plan = ["d1-s0", "d3-s0", "d4-s0"] ∧
    (((driverFedInputs Example.ext Example.plan).Nodup ∧
        ∀ name ∈ driverFedInputs Example.ext Example.plan,
          name ∉ remoteOutputs Example.ext Example.plan) ↔
      ∀ name, (setNames (submitAll Example.ext Example.plan)).count name ≤ 1) ∧
    ((∀ name, (setNames (submitAll Example.ext Example.plan)).count name ≤ 1) →
      ∀ ops : List Action, ops.Perm (submitAll Example.ext Example.plan) →
        ∀ (k j : Nat) (name : String) (l : Location), k ≤ j →
          ((Registry.empty.run (ops.take k)).GetShardLocation name).1.Location = some l →
          (Registry.empty.run (ops.take j)).GetShardLocation name =
            (Registry.empty.run (ops.take k)).GetShardLocation name) :=
  ⟨by decide, by decide, by decide, set_at_most_once Example.ext Example.plan (by decide)⟩

/-! ## ReleaseTaskGroupInputs -/

theorem releaseShards_eq (ext : Ext) (reg : Registry) (shards : List DatasetShard) :
    releaseShards ext reg shards =
      shards.filterMap fun shard =>
        ((reg.GetShardLocation (ext.Name shard)).1.Location).map fun l =>
          { url := ext.URL l, name := ext.Name shard } := by
  induction shards with
  | nil => rfl
  | cons shard rest ih =>
    unfold releaseShards
    simp only [getShardLocation]
    cases h : (reg.GetShardLocation (ext.Name shard)).1.Location with
    | none => simp [List.filterMap_cons, h, ih]
    | some l => simp [List.filterMap_cons, h, ih]

theorem releaseGroups_eq (ext : Ext) (reg : Registry) (groups : List TaskGroup)
    (hne : ∀ taskGroup ∈ groups, taskGroup.Tasks ≠ []) :
    releaseGroups ext reg groups = some (expectedRequests ext reg groups) := by
  induction groups with
  | nil => rfl
  | cons taskGroup rest ih =>
    have hrest := ih fun g hg => hne g (List.mem_cons_of_mem _ hg)
    have hthis : taskGroup.Tasks ≠ [] := hne taskGroup (List.mem_cons_self _ _)
    cases hlast : taskGroup.Tasks.getLast? with
    | none => exact absurd (List.getLast?_eq_none_iff.mp hlast) hthis
    | some lastTask =>
      simp only [releaseGroups, hlast, hrest, expectedRequests, List.flatMap_cons,
        releaseShards_eq]

theorem sentRequests_append (l₁ l₂ : List ReleaseAction) :
    sentRequests (l₁ ++ l₂) = sentRequests l₁ ++ sentRequests l₂ := by
  induction l₁ with
  | nil => rfl
  | cons a rest ih => cases a <;> simp [sentRequests, ih]

theorem returnedRequests_append (l₁ l₂ : List ReleaseAction) :
    returnedRequests (l₁ ++ l₂) = returnedRequests l₁ ++ returnedRequests l₂ := by
  induction l₁ with
  | nil => rfl
  | cons a rest ih => cases a <;> simp [returnedRequests, ih]

theorem sentRequests_purgeLog (err : Option String) : sentRequests (purgeLog err) = [] := by
  cases err <;> rfl

theorem returnedRequests_purgeLog (err : Option String) :
    returnedRequests (purgeLog err) = [] := by
  cases err <;> rfl

theorem done_not_mem_purgeLog (err : Option String) :
    ReleaseAction.WaitGroupDone ∉ purgeLog err := by
  cases err <;> simp [purgeLog]

theorem releaseInv_init (reqs : List DeleteRequest) : ReleaseInv reqs (ReleaseState.init reqs) := by
  simp [ReleaseInv, ReleaseState.init, sentRequests, returnedRequests]

theorem releaseInv_step (reqs : List DeleteRequest) (s t : ReleaseState)
    (hinv : ReleaseInv reqs s) (hstep : ReleaseStep s t) : ReleaseInv reqs t := by
  obtain ⟨hwg, hsent, hret, hnot, hfin⟩ := hinv
  have hsent' := fun a => (List.perm_iff_count.mp hsent) a
  have hret' := fun a => (List.perm_iff_count.mp hret) a
  cases hstep with
  | spawn r rest hspawn =>
    have hf : s.finished = false := by
      cases h : s.finished with
      | false => rfl
      | true => rw [(hfin h).1] at hspawn; cases hspawn
    refine ⟨?_, ?_, hret, hnot, ?_⟩
    · simp only [List.length_cons]; omega
    · apply List.perm_iff_count.mpr
      intro a
      have := hsent' a
      simp only [List.count_append, List.count_cons, hspawn] at this ⊢
      omega
    · intro h
      simp only [hf] at h
      cases h
  | call pre post r hcall =>
    have hf : s.finished = false := by
      cases h : s.finished with
      | false => rfl
      | true => rw [(hfin h).2.1] at hcall; simp at hcall
    refine ⟨?_, ?_, ?_, ?_, ?_⟩
    · simp only [hwg, hcall, List.length_cons, List.length_append]; omega
    · apply List.perm_iff_count.mpr
      intro a
      have := hsent' a
      simp only [sentRequests_append, sentRequests, List.count_append, List.count_cons,
        List.count_nil, hcall] at this ⊢
      omega
    · apply List.perm_iff_count.mpr
      intro a
      have := hret' a
      simp only [sentRequests_append, returnedRequests_append, sentRequests, returnedRequests,
        List.count_append, List.count_cons, List.count_nil, List.append_nil] at this ⊢
      omega
    · intro _
      simp only [List.mem_append, List.mem_singleton, not_or]
      exact ⟨hnot hf, by simp⟩
    · intro h
      simp only [hf] at h
      cases h
  | ret pre post r err hinflight =>
    have hf : s.finished = false := by
      cases h : s.finished with
      | false => rfl
      | true => rw [(hfin h).2.2.1] at hinflight; simp at hinflight
    refine ⟨?_, ?_, ?_, ?_, ?_⟩
    · simp only [hwg, hinflight, List.length_cons, List.length_append]; omega
    · apply List.perm_iff_count.mpr
      intro a
      have := hsent' a
      simp only [sentRequests_append, sentRequests, List.count_append, List.count_cons,
        List.count_nil, List.append_nil] at this ⊢
      omega
    · apply List.perm_iff_count.mpr
      intro a
      have := hret' a
      simp only [sentRequests_append, returnedRequests_append, sentRequests, returnedRequests,
        List.count_append, List.count_cons, List.count_nil, List.append_nil, hinflight] at this ⊢
      omega
    · intro _
      simp only [List.mem_append, List.mem_singleton, not_or]
      exact ⟨hnot hf, by simp⟩
    · intro h
      simp only [hf] at h
      cases h
  | done pre post r err hreturned =>
    have hf : s.finished = false := by
      cases h : s.finished with
      | false => rfl
      | true => rw [(hfin h).2.2.2.1] at hreturned; simp at hreturned
    refine ⟨?_, ?_, ?_, ?_, ?_⟩
    · simp only [hwg, hreturned, List.length_cons, List.length_append]; omega
    · simpa only [sentRequests_append, sentRequests_purgeLog, List.append_nil] using hsent
    · simpa only [sentRequests_append, returnedRequests_append, sentRequests_purgeLog,
        returnedRequests_purgeLog, List.append_nil] using hret
    · intro _
      simp only [List.mem_append, not_or]
      exact ⟨hnot hf, done_not_mem_purgeLog err⟩
    · intro h
      simp only [hf] at h
      cases h
  | finish hspawn hzero hf =>
    have hlen : s.started.length + s.inflight.length + s.returned.length = 0 := by omega
    have h1 : s.started = [] := List.length_eq_zero.mp (by omega)
    have h2 : s.inflight = [] := List.length_eq_zero.mp (by omega)
    have h3 : s.returned = [] := List.length_eq_zero.mp (by omega)
    refine ⟨hwg, ?_, ?_, ?_, ?_⟩
    · simpa only [sentRequests_append, sentRequests, List.append_nil] using hsent
    · simpa only [sentRequests_append, returnedRequests_append, sentRequests, returnedRequests,
        List.append_nil] using hret
    · intro h
      cases h
    · intro _
      exact ⟨hspawn, h1, h2, h3, s.trace, rfl, hnot hf⟩

theorem releaseInv_reach (reqs : List DeleteRequest) (s : ReleaseState)
    (h : ReleaseReach (ReleaseState.init reqs) s) : ReleaseInv reqs s := by
  induction h with
  | refl => exact releaseInv_init reqs
  | step t u _ hstep ih => exact releaseInv_step reqs t u ih hstep

theorem releaseReach_trans {s t u : ReleaseState} (h₁ : ReleaseReach s t)
    (h₂ : ReleaseReach t u) : ReleaseReach s u := by
  induction h₂ with
  | refl => exact h₁
  | step v x _ hstep ih => exact ReleaseReach.step v x ih hstep

/-- One scheduling: each goroutine runs to its end before the next starts. -/
theorem release_run_all (err : DeleteRequest → Option String) (reqs : List DeleteRequest)
    (tr : List ReleaseAction) :
    ∃ tr2,
      ReleaseReach
        { toSpawn := reqs, started := [], inflight := [], returned := [], wg := 0,
          finished := false, trace := tr }
        { toSpawn := [], started := [], inflight := [], returned := [], wg := 0,
          finished := false, trace := tr2 } ∧
      (∀ a ∈ tr, a ∈ tr2) ∧
      (∀ r ∈ reqs, ReleaseAction.deleteReturned r (err r) ∈ tr2) := by
  induction reqs generalizing tr with
  | nil => exact ⟨tr, ReleaseReach.refl, fun a ha => ha, by simp⟩
  | cons r rest ih =>
    obtain ⟨tr2, hreach, hkeep, hall⟩ :=
      ih (tr ++ [ReleaseAction.sendDeleteRequest r] ++
        [ReleaseAction.deleteReturned r (err r)] ++ purgeLog (err r))
    refine ⟨tr2, ?_, ?_, ?_⟩
    · refine releaseReach_trans ?_ hreach
      have s1 := ReleaseStep.spawn
        { toSpawn := r :: rest, started := [], inflight := [], returned := [], wg := 0,
          finished := false, trace := tr } r rest rfl
      have s2 := ReleaseStep.call
        { toSpawn := rest, started := [r], inflight := [], returned := [], wg := 1,
          finished := false, trace := tr } [] [] r rfl
      have s3 := ReleaseStep.ret
        { toSpawn := rest, started := [], inflight := [r], returned := [], wg := 1,
          finished := false, trace := tr ++ [ReleaseAction.sendDeleteRequest r] } [] [] r
        (err r) rfl
      have s4 := ReleaseStep.done
        { toSpawn := rest, started := [], inflight := [], returned := [(r, err r)], wg := 1,
          finished := false,
          trace := tr ++ [ReleaseAction.sendDeleteRequest r] ++
            [ReleaseAction.deleteReturned r (err r)] } [] [] r (err r) rfl
      exact ReleaseReach.step _ _ (ReleaseReach.step _ _ (ReleaseReach.step _ _
        (ReleaseReach.step _ _ ReleaseReach.refl s1) s2) s3) s4
    · intro a ha
      apply hkeep
      simp [ha]
    · intro q hq
      rcases List.mem_cons.mp hq with rfl | hq
      · apply hkeep
        simp
      · exact hall q hq

theorem mem_expectedRequests (ext : Ext) (reg : Registry) (groups : List TaskGroup)
    (r : DeleteRequest) (h : r ∈ expectedRequests ext reg groups) :
    ∃ taskGroup ∈ groups, ∃ lastTask, taskGroup.Tasks.getLast? = some lastTask ∧
      ∃ shard ∈ lastTask.OutputShards, ∃ l,
        (getShardLocation ext reg shard).1.Location = some l ∧
        r = { url := ext.URL l, name := ext.Name shard } := by
  simp only [expectedRequests, List.mem_flatMap] at h
  obtain ⟨taskGroup, hg, hr⟩ := h
  cases hlast : taskGroup.Tasks.getLast? with
  | none => simp [hlast] at hr
  | some lastTask =>
    simp only [hlast, List.mem_filterMap, Option.map_eq_some'] at hr
    obtain ⟨shard, hshard, l, hl, heq⟩ := hr
    exact ⟨taskGroup, hg, lastTask, hlast, shard, hshard, l, hl, heq.symm⟩

/-- C6: for a ReleaseTaskGroupInputs event whose groups all have a task, the
goroutines the handler starts are, in order, one per output shard of the last
task of each listed group whose registry location is not nil, each sending a
delete-shard request to that location's URL with that shard's name.  Under
every scheduling: the requests sent so far are among these, each at most once,
and each is for a shard with a non-nil registered location; WaitGroup.Done()
is not called while the handler has not finished; and when it has, Done() is
the last call and before it every one of these requests was sent and has
returned.  Whatever error or nil each request returns, some scheduling ends
with Done() called. -/
theorem release_requests (ext : Ext) (reg : Registry) (event : ReleaseTaskGroupInputs)
    (hne : ∀ taskGroup ∈ event.TaskGroups, taskGroup.Tasks ≠ []) :
    releaseGroups ext reg event.TaskGroups =
      some (expectedRequests ext reg event.TaskGroups) ∧
    (∀ s, ReleaseReach (ReleaseState.init (expectedRequests ext reg event.TaskGroups)) s →
      (sentRequests s.trace).Subperm (expectedRequests ext reg event.TaskGroups) ∧
      (∀ r ∈ sentRequests s.trace,
        ∃ taskGroup ∈ event.TaskGroups, ∃ lastTask,
          taskGroup.Tasks.getLast? = some lastTask ∧
          ∃ shard ∈ lastTask.OutputShards, ∃ l,
            (getShardLocation ext reg shard).1.Location = some l ∧
            r = { url := ext.URL l, name := ext.Name shard }) ∧
      (s.finished = false → ReleaseAction.WaitGroupDone ∉ s.trace) ∧
      (s.finished = true →
        ∃ body, s.trace = body ++ [ReleaseAction.WaitGroupDone] ∧
          ReleaseAction.WaitGroupDone ∉ body ∧
          (sentRequests body).Perm (expectedRequests ext reg event.TaskGroups) ∧
          (returnedRequests body).Perm (expectedRequests ext reg event.TaskGroups))) ∧
    (∀ err : DeleteRequest → Option String,
      ∃ s, ReleaseReach (ReleaseState.init (expectedRequests ext reg event.TaskGroups)) s ∧
        s.finished = true ∧
        ∀ r ∈ expectedRequests ext reg event.TaskGroups,
          ReleaseAction.deleteReturned r (err r) ∈ s.trace) := by
  refine ⟨releaseGroups_eq ext reg event.TaskGroups hne, ?_, ?_⟩
  · intro s hreach
    obtain ⟨-, hsent, hret, hnot, hfin⟩ := releaseInv_reach _ s hreach
    have hsub : (sentRequests s.trace).Subperm (expectedRequests ext reg event.TaskGroups) := by
      refine List.Subperm.trans ?_ hsent.subperm
      rw [List.append_assoc]
      exact (List.sublist_append_left _ _).subperm
    refine ⟨hsub, ?_, hnot, ?_⟩
    · intro r hr
      exact mem_expectedRequests ext reg _ r (hsub.subset hr)
    · intro hf
      obtain ⟨h1, h2, h3, -, body, hbody, hnotin⟩ := hfin hf
      refine ⟨body, hbody, hnotin, ?_, ?_⟩
      · have := hsent
        rw [h1, h2, hbody] at this
        simpa [sentRequests_append, sentRequests] using this
      · have hs := hsent
        have hr := hret
        rw [h1, h2, hbody] at hs
        rw [h3, hbody] at hr
        simp only [sentRequests_append, returnedRequests_append, sentRequests, returnedRequests,
          List.append_nil] at hs hr
        exact hr.trans hs
  · intro err
    obtain ⟨tr2, hreach, -, hall⟩ :=
      release_run_all err (expectedRequests ext reg event.TaskGroups) []
    refine ⟨{ toSpawn := [], started := [], inflight := [], returned := [], wg := 0,
              finished := true, trace := tr2 ++ [ReleaseAction.WaitGroupDone] }, ?_, rfl, ?_⟩
    · exact ReleaseReach.step _ _ hreach (ReleaseStep.finish _ rfl rfl rfl)
    · intro r hr
      simp [hall r hr]

/-- C6 at the release of the map, filter and sort groups of the example plan:
the map shard and the sort shard are registered, the filter shard is not. -/
theorem release_requests_witness :
    (∀ taskGroup ∈ Example.release.TaskGroups, taskGroup.Tasks ≠ []) ∧
    expectedRequests Example.ext Example.registry Example.release.TaskGroups =
      [{ url := "a", name := "d1-s0" }, { url := "b", name := "d4-s0" }] ∧
    releaseGroups Example.ext Example.registry Example.release.TaskGroups =
      some (expectedRequests Example.ext Example.registry Example.release.TaskGroups) ∧
    (∀ s, ReleaseReach (ReleaseState.init
        (expectedRequests Example.ext Example.registry Example.release.TaskGroups)) s →
      (sentRequests s.trace).Subperm
        (expectedRequests Example.ext Example.registry Example.release.TaskGroups) ∧
      (∀ r ∈ sentRequests s.trace,
        ∃ taskGroup ∈ Example.release.TaskGroups, ∃ lastTask,
          taskGroup.Tasks.getLast? = some lastTask ∧
          ∃ shard ∈ lastTask.OutputShards, ∃ l,
            (getShardLocation Example.ext Example.registry shard).1.Location = some l ∧
            r = { url := Example.ext.URL l, name := Example.ext.Name shard }) ∧
      (s.finished = false → ReleaseAction.WaitGroupDone ∉ s.trace) ∧
      (s.finished = true →
        ∃ body, s.trace = body ++ [ReleaseAction.WaitGroupDone] ∧
          ReleaseAction.WaitGroupDone ∉ body ∧
          (sentRequests body).Perm
            (expectedRequests Example.ext Example.registry Example.release.TaskGroups) ∧
          (returnedRequests body).Perm
            (expectedRequests Example.ext Example.registry Example.release.TaskGroups))) ∧
    (∀ err : DeleteRequest → Option String,
      ∃ s, ReleaseReach (ReleaseState.init
          (expectedRequests Example.ext Example.registry Example.release.TaskGroups)) s ∧
        s.finished = true ∧
        ∀ r ∈ expectedRequests Example.ext Example.registry Example.release.TaskGroups,
          ReleaseAction.deleteReturned r (err r) ∈ s.trace) :=
  ⟨by decide, by decide,
    release_requests Example.ext Example.registry Example.release (by decide)⟩

/-- C10 at the tasks of the example plan: the sort task reads one on-disk
shard, the map task one shard that is not on disk. -/
theorem isInputOnDisk_witness :
    isInputOnDisk Example.ext Example.sortTask = true ∧
    isInputOnDisk Example.ext Example.mapTask = false ∧
    isInputOnDisk Example.ext Example.sourceTask = true ∧
    (isInputOnDisk Example.ext Example.sortTask = true ↔
      ∀ shard ∈ Example.sortTask.InputShards,
        shard.Dataset.Meta.OnDisk = Example.ext.ModeOnDisk) :=
  ⟨by decide, by decide, (isInputOnDisk_spec Example.ext Example.sourceTask).2.2 rfl,
    (isInputOnDisk_spec Example.ext Example.sortTask).1⟩

end Scheduler

end Gleam

namespace Gleam

namespace Instruction

theorem index_of_lt (writers : List Writer) (j : Nat) (hj : j < writers.length) :
    index writers (j : Int) = some (writers.get ⟨j, hj⟩) := by
  simp [index, List.get?_eq_get hj]

theorem writeMessage_ok (writer : Writer) (data : Row)
    (hw : ∀ e ∈ writer.errors, e = none) :
    (WriteMessage writer data).2 = none ∧
    (WriteMessage writer data).1.received = writer.received ++ [data] ∧
    ∀ e ∈ (WriteMessage writer data).1.errors, e = none := by
  unfold WriteMessage
  cases h : writer.errors with
  | nil => simp
  | cons e rest =>
    rw [h] at hw
    have he : e = none := hw e (List.mem_cons_self _ _)
    subst he
    exact ⟨rfl, rfl, fun e he => hw e (List.mem_cons_of_mem _ he)⟩

/-- One row: it is appended to the writer at its partition and the other
writers are left alone. -/
theorem scatterRow_ok {κ : Type} (u : Util κ) (indexes : List Int) (writers : List Writer)
    (data : Row) (j : Nat) (hj : j < writers.length)
    (hpart : partitionOf u writers.length indexes data = some (j : Int))
    (hw : ∀ w ∈ writers, ∀ e ∈ w.errors, e = none) :
    ∃ w0 w1, writers.get? j = some w0 ∧ w1.received = w0.received ++ [data] ∧
      (∀ e ∈ w1.errors, e = none) ∧
      scatterRow u writers.length indexes writers data = (writers.set j w1, none) := by
  have hget : writers.get? j = some (writers.get ⟨j, hj⟩) := List.get?_eq_get hj
  have hmem : writers.get ⟨j, hj⟩ ∈ writers := List.get_mem _ _ _
  obtain ⟨h1, h2, h3⟩ := writeMessage_ok (writers.get ⟨j, hj⟩) data (hw _ hmem)
  refine ⟨writers.get ⟨j, hj⟩, (WriteMessage (writers.get ⟨j, hj⟩) data).1, hget, h2, h3, ?_⟩
  unfold partitionOf at hpart
  unfold scatterRow
  cases hd : u.DecodeRowKeys data indexes with
  | error e => simp [hd] at hpart
  | ok keyObjects =>
    simp only [hd, Option.some.injEq] at hpart
    simp only [hpart, index_of_lt writers j hj, Int.toNat_ofNat, h1]

theorem processMessage_scatter {κ : Type} (u : Util κ) (indexes : List Int) (n : Nat)
    (reader : List Row) (writers : List Writer) (hlen : writers.length = n)
    (hpart : ∀ data ∈ reader, ∃ j, j < n ∧ partitionOf u n indexes data = some (j : Int))
    (hw : ∀ w ∈ writers, ∀ e ∈ w.errors, e = none) :
    (ProcessMessage (scatterRow u n indexes) reader writers).2 = none ∧
    (ProcessMessage (scatterRow u n indexes) reader writers).1.length = n ∧
    ∀ j w, writers.get? j = some w →
      ∃ w2, (ProcessMessage (scatterRow u n indexes) reader writers).1.get? j = some w2 ∧
        w2.received =
          w.received ++ reader.filter fun data => partitionOf u n indexes data == some (j : Int) := by
  induction reader generalizing writers with
  | nil =>
    refine ⟨rfl, hlen, ?_⟩
    intro j w hget
    exact ⟨w, by simpa [ProcessMessage] using hget, by simp⟩
  | cons data rest ih =>
    obtain ⟨x, hx, hp⟩ := hpart data (List.mem_cons_self _ _)
    have hx2 : x < writers.length := by omega
    obtain ⟨w0, w1, hw0, hrec, herr, hstep⟩ :=
      scatterRow_ok u indexes writers data x hx2 (by rw [hlen]; exact hp) hw
    rw [hlen] at hstep
    have hw2 : ∀ w ∈ writers.set x w1, ∀ e ∈ w.errors, e = none := by
      intro w hmem
      rcases List.mem_or_eq_of_mem_set hmem with h | h
      · exact hw w h
      · rw [h]
        exact herr
    have hrest := ih (writers.set x w1) (by simp [hlen])
      (fun d hd => hpart d (List.mem_cons_of_mem _ hd)) hw2
    have hunfold : ProcessMessage (scatterRow u n indexes) (data :: rest) writers =
        ProcessMessage (scatterRow u n indexes) rest (writers.set x w1) := by
      simp [ProcessMessage, hstep]
    rw [hunfold]
    refine ⟨hrest.1, hrest.2.1, ?_⟩
    intro j w hget
    by_cases hj : j = x
    · subst hj
      rw [hw0] at hget
      injection hget with hget
      subst hget
      have hset : (writers.set j w1).get? j = some w1 := by
        simp [List.get?_eq_getElem?, List.getElem?_set, hx2]
      obtain ⟨w2, hw2get, hw2rec⟩ := hrest.2.2 j _ hset
      refine ⟨w2, hw2get, ?_⟩
      rw [hw2rec, hrec]
      simp [List.filter_cons, hp]
    · have hset : (writers.set x w1).get? j = some w := by
        rw [← hget]
        simp only [List.get?_eq_getElem?]
        rw [List.getElem?_set_ne (fun h => hj h.symm)]
      obtain ⟨w2, hw2get, hw2rec⟩ := hrest.2.2 j _ hset
      refine ⟨w2, hw2get, ?_⟩
      have hne : (partitionOf u n indexes data == some (j : Int)) = false := by
        rw [hp]
        simp
        exact fun h => hj h.symm
      rw [hw2rec]
      simp [List.filter_cons, hne]

theorem sum_indicator (c j0 n : Nat) :
    ((List.range n).map fun j => if j0 = j then c else 0).sum = if j0 < n then c else 0 := by
  induction n with
  | zero => simp
  | succ n ih =>
    rw [List.range_succ, List.map_append, List.sum_append, ih]
    by_cases h1 : j0 < n
    · have h2 : j0 ≠ n := by omega
      have h3 : j0 < n + 1 := by omega
      simp [h1, h2, h3]
    · by_cases h2 : j0 = n
      · subst h2
        simp
      · have h3 : ¬ j0 < n + 1 := by omega
        simp [h1, h2, h3]

/-- Splitting rows by partition and putting the parts together again gives
the rows back, each once. -/
theorem buckets_perm {α : Type} [DecidableEq α] (part : α → Option Int) (n : Nat)
    (reader : List α)
    (hpart : ∀ data ∈ reader, ∃ j, j < n ∧ part data = some (j : Int)) :
    ((List.range n).flatMap fun j => reader.filter fun data => part data == some (j : Int)).Perm
      reader := by
  apply List.perm_iff_count.mpr
  intro a
  rw [List.count_flatMap]
  by_cases ha : a ∈ reader
  · obtain ⟨j0, hj0, hp⟩ := hpart a ha
    have hfun : (List.count a ∘ fun j : Nat =>
        reader.filter fun data => part data == some (j : Int)) =
        fun j => if j0 = j then List.count a reader else 0 := by
      funext j
      simp only [Function.comp]
      by_cases hj : j0 = j
      · subst hj
        rw [List.count_filter (by simp [hp])]
        simp
      · simp only [hj, if_false]
        apply List.count_eq_zero.mpr
        intro hmem
        have := (List.mem_filter.mp hmem).2
        rw [hp] at this
        simp at this
        exact hj this
    rw [hfun, sum_indicator]
    simp [hj0]
  · have hzero : List.count a reader = 0 := List.count_eq_zero.mpr ha
    rw [hzero]
    apply List.sum_eq_zero
    intro c hc
    simp only [List.mem_map, List.mem_range, Function.comp] at hc
    obtain ⟨j, -, rfl⟩ := hc
    apply List.count_eq_zero.mpr
    intro hmem
    exact ha (List.mem_filter.mp hmem).1

theorem partitionOf_index {κ : Type} (u : Util κ) (writers : List Writer) (indexes : List Int)
    (data : Row)
    (hdec : ∃ keyObjects, u.DecodeRowKeys data indexes = Except.ok keyObjects)
    (hrange : ∀ keyObjects, u.DecodeRowKeys data indexes = Except.ok keyObjects →
      0 ≤ u.PartitionByKeys writers.length keyObjects ∧
      u.PartitionByKeys writers.length keyObjects < writers.length) :
    ∃ j, j < writers.length ∧ partitionOf u writers.length indexes data = some (j : Int) := by
  obtain ⟨keyObjects, hk⟩ := hdec
  obtain ⟨h0, h1⟩ := hrange keyObjects hk
  refine ⟨(u.PartitionByKeys writers.length keyObjects).toNat, by omega, ?_⟩
  simp [partitionOf, hk, Int.toNat_of_nonneg h0]

/-- C4, as the code has it: for a stream of rows whose key columns all decode,
a list of writers none of whose writes fails, and a PartitionByKeys that
gives every row's keys an index of that list (so the list is not empty when
there is a row), DoScatterPartitions returns
nil and leaves every writer with what it had received followed by the rows
whose partition PartitionByKeys(len(writers), keys) is its index, unchanged
and in input order; every row has exactly one such index, so the rows received
by all writers together are the input rows, each once. -/
theorem DoScatterPartitions_spec {κ : Type} (u : Util κ) (reader : List Row)
    (writers : List Writer) (indexes : List Int)
    (hdec : ∀ data ∈ reader, ∃ keyObjects, u.DecodeRowKeys data indexes = Except.ok keyObjects)
    (hwrite : ∀ w ∈ writers, ∀ e ∈ w.errors, e = none)
    (hrange : ∀ data ∈ reader, ∀ keyObjects,
      u.DecodeRowKeys data indexes = Except.ok keyObjects →
      0 ≤ u.PartitionByKeys writers.length keyObjects ∧
      u.PartitionByKeys writers.length keyObjects < writers.length) :
    (DoScatterPartitions u reader writers indexes).2 = none ∧
    (DoScatterPartitions u reader writers indexes).1.length = writers.length ∧
    (∀ j w, writers.get? j = some w →
      ∃ w2, (DoScatterPartitions u reader writers indexes).1.get? j = some w2 ∧
        w2.received = w.received ++ reader.filter fun data =>
          partitionOf u writers.length indexes data == some (j : Int)) ∧
    (∀ data ∈ reader, ∃ j, j < writers.length ∧
      partitionOf u writers.length indexes data = some (j : Int)) ∧
    ((List.range writers.length).flatMap fun j =>
      reader.filter fun data =>
        partitionOf u writers.length indexes data == some (j : Int)).Perm reader := by
  have hpart : ∀ data ∈ reader, ∃ j, j < writers.length ∧
      partitionOf u writers.length indexes data = some (j : Int) :=
    fun data hdata =>
      partitionOf_index u writers indexes data (hdec data hdata) (hrange data hdata)
  obtain ⟨h1, h2, h3⟩ :=
    processMessage_scatter u indexes writers.length reader writers rfl hpart hwrite
  exact ⟨h1, h2, h3, hpart, buckets_perm _ _ _ hpart⟩

/-- C4 fails as stated: the key columns of the four rows decode and the list
of two writers is not empty, but the pipe of writer 0 is closed.  The first row
goes to writer 1; the write of the second row to writer 0 fails and
DoScatterPartitions returns that error, so the second row is received by no
writer and the last two rows are written to none.  With a PartitionByKeys that
leaves the range of the writers the first row already ends in the index
panic. -/
theorem scatter_failing_writer_counterexample :
    (∀ data ∈ Example.rows, ∃ keyObjects,
      Example.util.DecodeRowKeys data [1] = Except.ok keyObjects) ∧
    [Example.closed, Example.sink] ≠ [] ∧
    DoScatterPartitions Example.util Example.rows [Example.closed, Example.sink] [1] =
      ([{ received := [], errors := [] }, { received := [[1, 5]], errors := [] }],
        some (Failure.error "io: read/write on closed pipe")) ∧
    ((DoScatterPartitions Example.util Example.rows [Example.closed, Example.sink] [1]).1.flatMap
      fun w => w.received) = [[1, 5]] ∧
    DoScatterPartitions Example.skewed Example.rows [Example.sink, Example.sink] [1] =
      ([Example.sink, Example.sink], some Failure.indexOutOfRange) := by
  refine ⟨fun _ _ => ⟨_, rfl⟩, by simp, by decide, by decide, by decide⟩

/-- C4, as the code has it, at four rows scattered by their first column to
two writers whose writes succeed. -/
theorem DoScatterPartitions_witness :
    (∀ data ∈ Example.rows, ∃ keyObjects,
      Example.util.DecodeRowKeys data [1] = Except.ok keyObjects) ∧
    [Example.sink, Example.sink] ≠ [] ∧
    (∀ w ∈ [Example.sink, Example.sink], ∀ e ∈ w.errors, e = none) ∧
    DoScatterPartitions Example.util Example.rows [Example.sink, Example.sink] [1] =
      ([{ received := [[2, 6], [4, 7]], errors := [] },
        { received := [[1, 5], [3, 8]], errors := [] }], none) ∧
    (DoScatterPartitions Example.util Example.rows [Example.sink, Example.sink] [1]).2 = none ∧
    (DoScatterPartitions Example.util Example.rows [Example.sink, Example.sink] [1]).1.length =
      [Example.sink, Example.sink].length ∧
    (∀ j w, [Example.sink, Example.sink].get? j = some w →
      ∃ w2, (DoScatterPartitions Example.util Example.rows [Example.sink, Example.sink]
          [1]).1.get? j = some w2 ∧
        w2.received = w.received ++ Example.rows.filter fun data =>
          partitionOf Example.util [Example.sink, Example.sink].length [1] data ==
            some (j : Int)) ∧
    (∀ data ∈ Example.rows, ∃ j, j < [Example.sink, Example.sink].length ∧
      partitionOf Example.util [Example.sink, Example.sink].length [1] data = some (j : Int)) ∧
    ((List.range [Example.sink, Example.sink].length).flatMap fun j =>
      Example.rows.filter fun data =>
        partitionOf Example.util [Example.sink, Example.sink].length [1] data ==
          some (j : Int)).Perm Example.rows :=
  ⟨fun _ _ => ⟨_, rfl⟩, by simp, by decide, by decide,
    DoScatterPartitions_spec Example.util Example.rows [Example.sink, Example.sink] [1]
      (fun _ _ => ⟨_, rfl⟩) (by decide)
      (by
        intro data hdata keyObjects _
        simp only [Example.util, List.length_cons, List.length_nil]
        constructor
        · exact Int.emod_nonneg _ (by decide)
        · exact Int.emod_lt_of_pos _ (by decide))⟩

end Instruction

end Gleam

namespace Gleam

namespace Executor

/-! ## Panics of the helpers -/

theorem andThen_panic (r next : Result) :
    (r.andThen next).panic = match r.panic with
      | some p => some p
      | none => next.panic := by
  unfold Result.andThen
  cases h : r.panic <;> simp [h]

theorem andThen_trace_of_ok (r next : Result) (h : r.panic = none) :
    (r.andThen next).trace = r.trace ++ next.trace := by
  simp [Result.andThen, h]

theorem andThen_of_panic (r next : Result) (p : Panic) (h : r.panic = some p) :
    r.andThen next = r := by
  simp [Result.andThen, h]

theorem andThen_known (r next : Result) (hr : r.panic ≠ some Panic.unknownInstruction)
    (hn : next.panic ≠ some Panic.unknownInstruction) :
    (r.andThen next).panic ≠ some Panic.unknownInstruction := by
  rw [andThen_panic]
  cases h : r.panic with
  | none => simpa using hn
  | some p => simpa [h] using hr

theorem ok_known (trace : List Action) :
    (Result.ok trace).panic ≠ some Panic.unknownInstruction := by
  simp [Result.ok]

theorem connect_known (x : Ext) (executorName : String) (inChan outChan : Option Piper)
    (i : Instruction) (isFirst isLast : Bool) (readerCount : Int) :
    (connectInputOutput x executorName inChan outChan i isFirst isLast readerCount).panic ≠
      some Panic.unknownInstruction := by
  unfold connectInputOutput
  apply andThen_known
  · cases isFirst <;> cases inChan <;> try exact ok_known _
    apply andThen_known _ _ (ok_known _)
    cases i.InputShardLocations.head? <;> simp [Result.fail, Result.ok]
  · cases isLast <;> cases outChan <;> try exact ok_known _
    apply andThen_known _ _ (ok_known _)
    cases i.OutputShardLocations.head? <;> simp [Result.fail, Result.ok]

theorem oneToOne_known (x : Ext) (inChan outChan : Piper) (i : Instruction)
    (isFirst isLast : Bool) (readerCount : Int) (op : Operator) :
    (oneToOne x inChan outChan i isFirst isLast readerCount op).panic ≠
      some Panic.unknownInstruction :=
  andThen_known _ _ (connect_known _ _ _ _ _ _ _ _) (ok_known _)

theorem fanIn_known (x : Ext) (NewPiper : Nat → Piper) (outChan : Piper) (i : Instruction)
    (isFirst isLast : Bool) (readerCount : Int) (op : Operator) :
    (fanIn x NewPiper outChan i isFirst isLast readerCount op).panic ≠
      some Panic.unknownInstruction :=
  andThen_known _ _ (andThen_known _ _ (ok_known _) (connect_known _ _ _ _ _ _ _ _)) (ok_known _)

theorem fanOut_known (x : Ext) (NewPiper : Nat → Piper) (inChan : Piper) (i : Instruction)
    (isFirst isLast : Bool) (readerCount : Int) (op : Operator) :
    (fanOut x NewPiper inChan i isFirst isLast readerCount op).panic ≠
      some Panic.unknownInstruction :=
  andThen_known _ _ (andThen_known _ _ (ok_known _) (connect_known _ _ _ _ _ _ _ _)) (ok_known _)

theorem twoInputs_known (x : Ext) (NewPiper : Nat → Piper) (outChan : Piper) (i : Instruction)
    (isFirst isLast : Bool) (readerCount : Int) :
    (twoInputs x NewPiper outChan i isFirst isLast readerCount).panic ≠
      some Panic.unknownInstruction := by
  unfold twoInputs
  split
  · exact andThen_known _ _ (ok_known _) (connect_known _ _ _ _ _ _ _ _)
  · simp [Result.fail]

/-- The body takes the branch of line 248 only when no variant is set. -/
theorem body_unknown (x : Ext) (NewPiper : Nat → Piper) (inChan outChan : Piper)
    (prevIsPipe : Bool) (i : Instruction) (isFirst isLast : Bool) (readerCount : Int)
    (h : (ExecuteInstruction.body x NewPiper inChan outChan prevIsPipe i isFirst isLast
      readerCount).panic = some Panic.unknownInstruction) :
    noVariant i = true := by
  unfold ExecuteInstruction.body at h
  split at h
  · exact absurd h (andThen_known _ _ (connect_known _ _ _ _ _ _ _ _) (ok_known _))
  split at h
  · exact absurd h (oneToOne_known _ _ _ _ _ _ _ _)
  split at h
  · exact absurd h (oneToOne_known _ _ _ _ _ _ _ _)
  split at h
  · exact absurd h (fanIn_known _ _ _ _ _ _ _ _)
  split at h
  · exact absurd h (fanOut_known _ _ _ _ _ _ _ _)
  split at h
  · exact absurd h (fanOut_known _ _ _ _ _ _ _ _)
  split at h
  · exact absurd h (fanIn_known _ _ _ _ _ _ _ _)
  split at h
  · exact absurd h (oneToOne_known _ _ _ _ _ _ _ _)
  split at h
  · refine absurd h (andThen_known _ _ (twoInputs_known _ _ _ _ _ _ _) ?_)
    split <;> simp [Result.ok, Result.fail]
  split at h
  · exact absurd h (andThen_known _ _ (twoInputs_known _ _ _ _ _ _ _) (ok_known _))
  split at h
  · exact absurd h (oneToOne_known _ _ _ _ _ _ _ _)
  split at h
  · exact absurd h (fanOut_known _ _ _ _ _ _ _ _)
  split at h
  · exact absurd h (andThen_known _ _ (twoInputs_known _ _ _ _ _ _ _) (ok_known _))
  simp_all [noVariant, Option.isNone_iff_eq_none, Option.eq_none_iff_forall_not_mem]

/-- C9: when none of the thirteen operator variants of an instruction is set,
ExecuteInstruction ends in the panic of line 248 and none of its calls dials a
net-reader or a net-writer; when at least one variant is set, it does not end
in that panic. -/
theorem unknown_variant_panics (x : Ext) (NewPiper : Nat → Piper) (inChan outChan : Piper)
    (prevIsPipe : Bool) (i : Instruction) (isFirst isLast : Bool) (readerCount : Int) :
    (noVariant i = true →
      (ExecuteInstruction x NewPiper inChan outChan prevIsPipe i isFirst isLast
        readerCount).panic = some Panic.unknownInstruction ∧
      ∀ a ∈ (ExecuteInstruction x NewPiper inChan outChan prevIsPipe i isFirst isLast
        readerCount).trace, a.isDial = false) ∧
    (noVariant i = false →
      (ExecuteInstruction x NewPiper inChan outChan prevIsPipe i isFirst isLast
        readerCount).panic ≠ some Panic.unknownInstruction) := by
  constructor
  · intro h
    simp only [noVariant, Bool.and_eq_true, Option.isNone_iff_eq_none] at h
    obtain ⟨⟨⟨⟨⟨⟨⟨⟨⟨⟨⟨⟨h1, h2⟩, h3⟩, h4⟩, h5⟩, h6⟩, h7⟩, h8⟩, h9⟩, h10⟩, h11⟩, h12⟩, h13⟩ := h
    have hbody : ExecuteInstruction.body x NewPiper inChan outChan prevIsPipe i isFirst isLast
        readerCount = Result.fail Panic.unknownInstruction := by
      simp [ExecuteInstruction.body, h1, h2, h3, h4, h5, h6, h7, h8, h9, h10, h11, h12, h13]
    simp [ExecuteInstruction, hbody, Result.fail, Action.isDial]
  · intro h hpanic
    have := body_unknown x NewPiper inChan outChan prevIsPipe i isFirst isLast readerCount
      (by simpa [ExecuteInstruction] using hpanic)
    rw [this] at h
    cases h

/-! ## Net-writers of the terminal instruction -/

theorem dialedWriters_append (l₁ l₂ : List Action) :
    dialedWriters (l₁ ++ l₂) = dialedWriters l₁ ++ dialedWriters l₂ := by
  induction l₁ with
  | nil => rfl
  | cons a rest ih => cases a <;> simp [dialedWriters, ih]

theorem dialedWriters_andThen_nil (a b : Result) (hb : dialedWriters b.trace = []) :
    dialedWriters (a.andThen b).trace = dialedWriters a.trace := by
  unfold Result.andThen
  cases h : a.panic with
  | none => simp [dialedWriters_append, hb]
  | some p => simp

theorem terminal_fail (i : Instruction) (readerCount : Int) (p : Panic) :
    TerminalWriter i readerCount (Result.fail p) := by
  simp [TerminalWriter, Result.fail, dialedWriters]

theorem terminal_pre (i : Instruction) (readerCount : Int) (a b : Result)
    (ha : dialedWriters a.trace = []) (hb : TerminalWriter i readerCount b) :
    TerminalWriter i readerCount (a.andThen b) := by
  unfold Result.andThen
  cases h : a.panic with
  | none =>
    simp only [TerminalWriter, dialedWriters_append, ha, List.nil_append]
    exact hb
  | some p =>
    simp only [TerminalWriter, ha, h]
    simp

theorem terminal_post (i : Instruction) (readerCount : Int) (a b : Result)
    (ha : TerminalWriter i readerCount a) (hb : dialedWriters b.trace = []) :
    TerminalWriter i readerCount (a.andThen b) := by
  unfold Result.andThen
  cases h : a.panic with
  | none =>
    simp only [TerminalWriter, dialedWriters_append, hb, List.append_nil]
    exact ⟨ha.1, fun _ => ha.2 h⟩
  | some p =>
    simp only [TerminalWriter, h]
    exact ⟨ha.1, fun hp => by cases hp⟩

theorem connect_terminal (x : Ext) (executorName : String) (inChan : Option Piper)
    (outChan : Piper) (i : Instruction) (isFirst : Bool) (readerCount : Int) :
    TerminalWriter i readerCount
      (connectInputOutput x executorName inChan (some outChan) i isFirst true readerCount) := by
  unfold connectInputOutput
  apply terminal_pre
  · cases isFirst <;> cases inChan <;> try rfl
    cases i.InputShardLocations.head? <;> rfl
  · simp only
    cases h : i.OutputShardLocations.head? with
    | none => simp [TerminalWriter, Result.andThen, Result.ok, Result.fail, dialedWriters]
    | some outLocation =>
      simp only [TerminalWriter, Result.andThen, Result.ok, dialedWriters, List.nil_append,
        List.cons_append, List.mem_singleton, forall_eq, true_and]
      exact fun _ => ⟨outLocation, h, rfl⟩

theorem connect_none_dialed (x : Ext) (executorName : String) (inChan : Option Piper)
    (i : Instruction) (isFirst isLast : Bool) (readerCount : Int) :
    dialedWriters
      (connectInputOutput x executorName inChan none i isFirst isLast readerCount).trace = [] := by
  unfold connectInputOutput
  rw [dialedWriters_andThen_nil]
  · cases isFirst <;> cases inChan <;> try rfl
    cases i.InputShardLocations.head? <;> rfl
  · cases isLast <;> rfl

theorem dialReaders_dialed (x : Ext) (name : String) (NewPiper : Nat → Piper) (k : Nat)
    (locations : List DatasetShardLocation) :
    dialedWriters (dialReaders x name NewPiper k locations).1 = [] := by
  induction locations generalizing k with
  | nil => rfl
  | cons l rest ih => simp [dialReaders, dialedWriters, ih]

theorem dialWriters_dialed (x : Ext) (name : String) (NewPiper : Nat → Piper) (k : Nat)
    (locations : List DatasetShardLocation) :
    dialedWriters (dialWriters x name NewPiper k locations).1 =
      locations.map fun l => (l.Name, 1) := by
  induction locations generalizing k with
  | nil => rfl
  | cons l rest ih => simp [dialWriters, dialedWriters, ih]

theorem closeAll_dialed (chans : List Piper) : dialedWriters (closeAll chans) = [] := by
  induction chans with
  | nil => rfl
  | cons c rest ih => simp [closeAll, dialedWriters, ih]

theorem oneToOne_terminal (x : Ext) (inChan outChan : Piper) (i : Instruction)
    (isFirst : Bool) (readerCount : Int) (op : Operator) :
    TerminalWriter i readerCount (oneToOne x inChan outChan i isFirst true readerCount op) :=
  terminal_post _ _ _ _ (connect_terminal _ _ _ _ _ _ _) rfl

theorem fanIn_terminal (x : Ext) (NewPiper : Nat → Piper) (outChan : Piper) (i : Instruction)
    (isFirst : Bool) (readerCount : Int) (op : Operator) :
    TerminalWriter i readerCount (fanIn x NewPiper outChan i isFirst true readerCount op) :=
  terminal_post _ _ _ _
    (terminal_pre _ _ _ _ (dialReaders_dialed _ _ _ _ _) (connect_terminal _ _ _ _ _ _ _)) rfl

theorem twoInputs_terminal (x : Ext) (NewPiper : Nat → Piper) (outChan : Piper)
    (i : Instruction) (isFirst : Bool) (readerCount : Int) :
    TerminalWriter i readerCount (twoInputs x NewPiper outChan i isFirst true readerCount) := by
  unfold twoInputs
  split
  · exact terminal_pre _ _ _ _ rfl (connect_terminal _ _ _ _ _ _ _)
  · exact terminal_fail _ _ _

theorem fanOut_dialed (x : Ext) (NewPiper : Nat → Piper) (inChan : Piper) (i : Instruction)
    (isFirst isLast : Bool) (readerCount : Int) (op : Operator) :
    dialedWriters (fanOut x NewPiper inChan i isFirst isLast readerCount op).trace =
      i.OutputShardLocations.map fun l => (l.Name, 1) := by
  unfold fanOut
  rw [dialedWriters_andThen_nil, dialedWriters_andThen_nil]
  · exact dialWriters_dialed _ _ _ _ _
  · exact connect_none_dialed _ _ _ _ _ _ _
  · simp [Result.ok, dialedWriters, closeAll_dialed]

/-- The net-writers of the body of a terminal instruction (isLast is true), by
the variant it is. -/
theorem body_writers (x : Ext) (NewPiper : Nat → Piper) (inChan outChan : Piper)
    (prevIsPipe : Bool) (i : Instruction) (isFirst : Bool) (readerCount : Int) (v : Variant)
    (hv : variantOf i = some v) :
    (v.isFanOut = false →
      TerminalWriter i readerCount
        (ExecuteInstruction.body x NewPiper inChan outChan prevIsPipe i isFirst true
          readerCount)) ∧
    (v.isFanOut = true →
      dialedWriters (ExecuteInstruction.body x NewPiper inChan outChan prevIsPipe i isFirst true
        readerCount).trace = i.OutputShardLocations.map fun l => (l.Name, 1)) := by
  rcases h1 : i.Script with _ | script
  swap
  · have hvar : v = Variant.Script := by
      simp [variantOf, h1] at hv
      exact hv.symm
    subst hvar
    simp only [ExecuteInstruction.body, h1]
    exact ⟨fun _ => terminal_post _ _ _ _ (connect_terminal _ _ _ _ _ _ _) rfl, fun h => by simp [Variant.isFanOut] at h⟩
  rcases h2 : i.LocalSort with _ | localSort
  swap
  · have hvar : v = Variant.LocalSort := by
      simp [variantOf, h1, h2] at hv
      exact hv.symm
    subst hvar
    simp only [ExecuteInstruction.body, h1, h2]
    exact ⟨fun _ => oneToOne_terminal _ _ _ _ _ _ _, fun h => by simp [Variant.isFanOut] at h⟩
  rcases h3 : i.PipeAsArgs with _ | pipeAsArgs
  swap
  · have hvar : v = Variant.PipeAsArgs := by
      simp [variantOf, h1, h2, h3] at hv
      exact hv.symm
    subst hvar
    simp only [ExecuteInstruction.body, h1, h2, h3]
    exact ⟨fun _ => oneToOne_terminal _ _ _ _ _ _ _, fun h => by simp [Variant.isFanOut] at h⟩
  rcases h4 : i.MergeSortedTo with _ | mergeSortedTo
  swap
  · have hvar : v = Variant.MergeSortedTo := by
      simp [variantOf, h1, h2, h3, h4] at hv
      exact hv.symm
    subst hvar
    simp only [ExecuteInstruction.body, h1, h2, h3, h4]
    exact ⟨fun _ => fanIn_terminal _ _ _ _ _ _ _, fun h => by simp [Variant.isFanOut] at h⟩
  rcases h5 : i.ScatterPartitions with _ | scatterPartitions
  swap
  · have hvar : v = Variant.ScatterPartitions := by
      simp [variantOf, h1, h2, h3, h4, h5] at hv
      exact hv.symm
    subst hvar
    simp only [ExecuteInstruction.body, h1, h2, h3, h4, h5]
    exact ⟨fun h => by simp [Variant.isFanOut] at h, fun _ => fanOut_dialed _ _ _ _ _ _ _ _⟩
  rcases h6 : i.RoundRobin with _ | roundRobin
  swap
  · have hvar : v = Variant.RoundRobin := by
      simp [variantOf, h1, h2, h3, h4, h5, h6] at hv
      exact hv.symm
    subst hvar
    simp only [ExecuteInstruction.body, h1, h2, h3, h4, h5, h6]
    exact ⟨fun h => by simp [Variant.isFanOut] at h, fun _ => fanOut_dialed _ _ _ _ _ _ _ _⟩
  rcases h7 : i.CollectPartitions with _ | collectPartitions
  swap
  · have hvar : v = Variant.CollectPartitions := by
      simp [variantOf, h1, h2, h3, h4, h5, h6, h7] at hv
      exact hv.symm
    subst hvar
    simp only [ExecuteInstruction.body, h1, h2, h3, h4, h5, h6, h7]
    exact ⟨fun _ => fanIn_terminal _ _ _ _ _ _ _, fun h => by simp [Variant.isFanOut] at h⟩
  rcases h8 : i.InputSplitReader with _ | inputSplitReader
  swap
  · have hvar : v = Variant.InputSplitReader := by
      simp [variantOf, h1, h2, h3, h4, h5, h6, h7, h8] at hv
      exact hv.symm
    subst hvar
    simp only [ExecuteInstruction.body, h1, h2, h3, h4, h5, h6, h7, h8]
    exact ⟨fun _ => oneToOne_terminal _ _ _ _ _ _ _, fun h => by simp [Variant.isFanOut] at h⟩
  rcases h9 : i.JoinPartitionedSorted with _ | jps
  swap
  · have hvar : v = Variant.JoinPartitionedSorted := by
      simp [variantOf, h1, h2, h3, h4, h5, h6, h7, h8, h9] at hv
      exact hv.symm
    subst hvar
    simp only [ExecuteInstruction.body, h1, h2, h3, h4, h5, h6, h7, h8, h9]
    exact ⟨fun _ => terminal_post _ _ _ _ (twoInputs_terminal _ _ _ _ _ _) (by split <;> rfl), fun h => by simp [Variant.isFanOut] at h⟩
  rcases h10 : i.CoGroupPartitionedSorted with _ | coGroup
  swap
  · have hvar : v = Variant.CoGroupPartitionedSorted := by
      simp [variantOf, h1, h2, h3, h4, h5, h6, h7, h8, h9, h10] at hv
      exact hv.symm
    subst hvar
    simp only [ExecuteInstruction.body, h1, h2, h3, h4, h5, h6, h7, h8, h9, h10]
    exact ⟨fun _ => terminal_post _ _ _ _ (twoInputs_terminal _ _ _ _ _ _) rfl, fun h => by simp [Variant.isFanOut] at h⟩
  rcases h11 : i.LocalTop with _ | localTop
  swap
  · have hvar : v = Variant.LocalTop := by
      simp [variantOf, h1, h2, h3, h4, h5, h6, h7, h8, h9, h10, h11] at hv
      exact hv.symm
    subst hvar
    simp only [ExecuteInstruction.body, h1, h2, h3, h4, h5, h6, h7, h8, h9, h10, h11]
    exact ⟨fun _ => oneToOne_terminal _ _ _ _ _ _ _, fun h => by simp [Variant.isFanOut] at h⟩
  rcases h12 : i.Broadcast with _ | broadcast
  swap
  · have hvar : v = Variant.Broadcast := by
      simp [variantOf, h1, h2, h3, h4, h5, h6, h7, h8, h9, h10, h11, h12] at hv
      exact hv.symm
    subst hvar
    simp only [ExecuteInstruction.body, h1, h2, h3, h4, h5, h6, h7, h8, h9, h10, h11, h12]
    exact ⟨fun h => by simp [Variant.isFanOut] at h, fun _ => fanOut_dialed _ _ _ _ _ _ _ _⟩
  rcases h13 : i.LocalHashAndJoinWith with _ | hashJoin
  swap
  · have hvar : v = Variant.LocalHashAndJoinWith := by
      simp [variantOf, h1, h2, h3, h4, h5, h6, h7, h8, h9, h10, h11, h12, h13] at hv
      exact hv.symm
    subst hvar
    simp only [ExecuteInstruction.body, h1, h2, h3, h4, h5, h6, h7, h8, h9, h10, h11, h12, h13]
    exact ⟨fun _ => terminal_post _ _ _ _ (twoInputs_terminal _ _ _ _ _ _) rfl, fun h => by simp [Variant.isFanOut] at h⟩
  simp [variantOf, h1, h2, h3, h4, h5, h6, h7, h8, h9, h10, h11, h12, h13] at hv

theorem loop_last (x : Ext) (total : Nat) (readerCount : Int) (last : Instruction)
    (front : List Instruction) (k : Nat) (prevIsPipe : Bool) (prevOutputChan : Piper)
    (htotal : total = k + front.length + 1) :
    ∃ inChan pip isFirst,
      (ExecuteInstructionSet.loop x total readerCount k prevIsPipe prevOutputChan
        (front ++ [last])).getLast? =
        some (ExecuteInstruction x (Piper.inner (k + front.length)) inChan
          (Piper.link (k + front.length + 1)) pip last isFirst true readerCount) := by
  induction front generalizing k prevIsPipe prevOutputChan with
  | nil =>
    refine ⟨prevOutputChan, prevIsPipe, k == 0, ?_⟩
    have hlast : ((k : Int) == (total : Int) - 1) = true := by
      simp only [beq_iff_eq]
      simp at htotal
      omega
    simp [ExecuteInstructionSet.loop, hlast]
  | cons a rest ih =>
    obtain ⟨inChan, pip, isFirst, h⟩ := ih (k + 1)
      (match a.Script with
        | some script => script.IsPipe
        | none => false)
      (Piper.link (k + 1)) (by simp at htotal ⊢; omega)
    refine ⟨inChan, pip, isFirst, ?_⟩
    have hk : k + (a :: rest).length = k + 1 + rest.length := by simp; omega
    rw [hk, ← h]
    simp only [List.cons_append, ExecuteInstructionSet.loop]
    cases hrest : ExecuteInstructionSet.loop x total readerCount (k + 1)
        (match a.Script with
          | some script => script.IsPipe
          | none => false)
        (Piper.link (k + 1)) (rest ++ [last]) with
    | nil =>
      rw [hrest] at h
      simp at h
    | cons r more => simp [List.getLast?_cons_cons]

/-- C5, as the code has it: take an instruction set, its terminal (last)
instruction and the variant that instruction is.  When the variant is not
ScatterPartitions, RoundRobin or Broadcast, every net-writer the terminal
instruction's goroutine dials carries the instruction set's reader count, and
when the goroutine does not panic it dials exactly one, to the first output
shard location.  When the variant is ScatterPartitions, RoundRobin or
Broadcast, it dials one net-writer per output shard location, each with reader
count 1. -/
theorem terminal_writer_reader_count (x : Ext) (instructions : InstructionSet)
    (front : List Instruction) (last : Instruction) (v : Variant)
    (hlast : instructions.Instructions = front ++ [last])
    (hv : variantOf last = some v) :
    ∃ r, (ExecuteInstructionSet x instructions).getLast? = some r ∧
      (v.isFanOut = false →
        (∀ p ∈ dialedWriters r.trace, p.2 = instructions.ReaderCount) ∧
        (r.panic = none →
          ∃ outLocation, last.OutputShardLocations.head? = some outLocation ∧
            dialedWriters r.trace = [(outLocation.Name, instructions.ReaderCount)])) ∧
      (v.isFanOut = true →
        dialedWriters r.trace = last.OutputShardLocations.map fun l => (l.Name, 1)) := by
  obtain ⟨inChan, pip, isFirst, h⟩ :=
    loop_last x instructions.Instructions.length instructions.ReaderCount last front 0 false
      (Piper.link 0) (by simp [hlast])
  refine ⟨_, by simpa [ExecuteInstructionSet, hlast] using h, ?_, ?_⟩
  · intro hfan
    have hb := (body_writers x (Piper.inner (0 + front.length)) inChan
      (Piper.link (0 + front.length + 1)) pip last isFirst instructions.ReaderCount v hv).1 hfan
    simp only [TerminalWriter] at hb
    simpa [ExecuteInstruction, dialedWriters_append, dialedWriters] using hb
  · intro hfan
    have hb := (body_writers x (Piper.inner (0 + front.length)) inChan
      (Piper.link (0 + front.length + 1)) pip last isFirst instructions.ReaderCount v hv).2 hfan
    simpa [ExecuteInstruction, dialedWriters_append, dialedWriters] using hb

/-- C5 fails as stated: the terminal instruction of this set scatters to two
output shard locations; the set's reader count is 2, and both net-writers are
dialed with reader count 1. -/
theorem terminal_scatter_counterexample :
    ((ExecuteInstructionSet Example.x Example.scatterSet).getLast?.map fun r =>
      dialedWriters r.trace) = some [("d1-s0", 1), ("d1-s1", 1)] ∧
    Example.scatterSet.Instructions.getLast? = some Example.scatter ∧
    Example.scatterSet.ReaderCount = 2 := by
  refine ⟨by decide, by decide, by decide⟩

/-- C5, as the code has it, at a set whose terminal instruction sorts. -/
theorem terminal_writer_reader_count_witness :
    Example.sortSet.Instructions = [] ++ [Example.sort] ∧
    variantOf Example.sort = some Variant.LocalSort ∧
    ∃ r, (ExecuteInstructionSet Example.x Example.sortSet).getLast? = some r ∧
      (Variant.LocalSort.isFanOut = false →
        (∀ p ∈ dialedWriters r.trace, p.2 = Example.sortSet.ReaderCount) ∧
        (r.panic = none →
          ∃ outLocation, Example.sort.OutputShardLocations.head? = some outLocation ∧
            dialedWriters r.trace = [(outLocation.Name, Example.sortSet.ReaderCount)])) ∧
      (Variant.LocalSort.isFanOut = true →
        dialedWriters r.trace = Example.sort.OutputShardLocations.map fun l => (l.Name, 1)) :=
  ⟨rfl, by decide,
    terminal_writer_reader_count Example.x Example.sortSet [] Example.sort Variant.LocalSort rfl
      (by decide)⟩

/-- C9 at an instruction with no variant set and at a sort instruction. -/
theorem unknown_variant_panics_witness :
    noVariant Example.blank = true ∧ noVariant Example.sort = false ∧
    (ExecuteInstruction Example.x (Piper.inner 0) (Piper.link 0) (Piper.link 1) false
      Example.blank true true 2).panic = some Panic.unknownInstruction ∧
    (∀ a ∈ (ExecuteInstruction Example.x (Piper.inner 0) (Piper.link 0) (Piper.link 1) false
      Example.blank true true 2).trace, a.isDial = false) ∧
    (ExecuteInstruction Example.x (Piper.inner 0) (Piper.link 0) (Piper.link 1) false
      Example.sort true true 2).panic ≠ some Panic.unknownInstruction :=
  ⟨by decide, by decide,
    ((unknown_variant_panics Example.x (Piper.inner 0) (Piper.link 0) (Piper.link 1) false
      Example.blank true true 2).1 (by decide)).1,
    ((unknown_variant_panics Example.x (Piper.inner 0) (Piper.link 0) (Piper.link 1) false
      Example.blank true true 2).1 (by decide)).2,
    (unknown_variant_panics Example.x (Piper.inner 0) (Piper.link 0) (Piper.link 1) false
      Example.sort true true 2).2 (by decide)⟩

end Executor

end Gleam
